import Mathlib

/-!
Verification of the DP-3T reference implementation (low-cost and unlinkable
designs). Byte strings are modelled as lists of naturals (each < 256), times
as integers counting seconds since the UNIX epoch. Python floor division and
modulo by a positive constant coincide with Int.ediv and Int.emod, which are
the `/` and `%` of Int used throughout. The process-wide sources of
randomness (fresh keys, fresh seeds, cryptographic shuffling) are passed in
as explicit oracle parameters; theorems that depend on the shuffle being a
shuffle take a permutation hypothesis.
-/

set_option maxRecDepth 100000
set_option maxHeartbeats 4000000

deriving instance DecidableEq for Except

namespace DP3T

/-- Truncate a natural to 32 bits. -/
def w32 (n : Nat) : Nat := n % 4294967296

/-- Rotate a 32-bit word right by n bits. -/
def rotr32 (x n : Nat) : Nat := w32 ((x >>> n) ||| (x <<< (32 - n)))

/-- Big-endian byte serialization of a value into n bytes. -/
def toBytesBE (n v : Nat) : List Nat :=
  (List.range n).map (fun i => (v >>> (8 * (n - 1 - i))) % 256)

/-- Big-endian interpretation of a byte list as a word. -/
def bytesToWordBE (l : List Nat) : Nat := l.foldl (fun acc b => acc * 256 + b) 0

/-- Split a list into consecutive chunks of size n (fuelled helper). -/
def chunksAux {α : Type} : Nat → Nat → List α → List (List α)
  | 0, _, _ => []
  | _, _, [] => []
  | fuel + 1, n, l => l.take n :: chunksAux fuel n (l.drop n)

/-- Split a list into consecutive chunks of size n. -/
def chunks {α : Type} (n : Nat) (l : List α) : List (List α) :=
  chunksAux l.length n l

/-- SHA-256 round constants. -/
def sha256K : List Nat := [
  1116352408, 1899447441, 3049323471, 3921009573, 961987163, 1508970993, 2453635748, 2870763221,
  3624381080, 310598401, 607225278, 1426881987, 1925078388, 2162078206, 2614888103, 3248222580,
  3835390401, 4022224774, 264347078, 604807628, 770255983, 1249150122, 1555081692, 1996064986,
  2554220882, 2821834349, 2952996808, 3210313671, 3336571891, 3584528711, 113926993, 338241895,
  666307205, 773529912, 1294757372, 1396182291, 1695183700, 1986661051, 2177026350, 2456956037,
  2730485921, 2820302411, 3259730800, 3345764771, 3516065817, 3600352804, 4094571909, 275423344,
  430227734, 506948616, 659060556, 883997877, 958139571, 1322822218, 1537002063, 1747873779,
  1955562222, 2024104815, 2227730452, 2361852424, 2428436474, 2756734187, 3204031479, 3329325298]

/-- Working state of the SHA-256 compression function: eight 32-bit words. -/
structure Hash8 where
  h0 : Nat
  h1 : Nat
  h2 : Nat
  h3 : Nat
  h4 : Nat
  h5 : Nat
  h6 : Nat
  h7 : Nat
deriving DecidableEq, Repr

/-- Initial SHA-256 hash state. -/
def sha256initH : Hash8 :=
  ⟨1779033703, 3144134277, 1013904242, 2773480762,
   1359893119, 2600822924, 528734635, 1541459225⟩

/-- SHA-256 padding: append 0x80, zeros, and the 64-bit big-endian bit length. -/
def sha256pad (msg : List Nat) : List Nat :=
  let len := msg.length
  let zeros := (120 - ((len + 1) % 64)) % 64
  msg ++ [128] ++ List.replicate zeros 0 ++ toBytesBE 8 (len * 8)

/-- SHA-256 message schedule: expand a 64-byte block to 64 words. -/
def sha256schedule (block : List Nat) : List Nat :=
  let w16 := (chunks 4 block).map bytesToWordBE
  (List.range 48).foldl (fun w _ =>
    let i := w.length
    let x15 := w.getD (i - 15) 0
    let x2 := w.getD (i - 2) 0
    let s0 := rotr32 x15 7 ^^^ rotr32 x15 18 ^^^ (x15 >>> 3)
    let s1 := rotr32 x2 17 ^^^ rotr32 x2 19 ^^^ (x2 >>> 10)
    w ++ [w32 (w.getD (i - 16) 0 + s0 + w.getD (i - 7) 0 + s1)]) w16

/-- One round of the SHA-256 compression function. -/
def sha256round (st : Hash8) (ki wi : Nat) : Hash8 :=
  let S1 := rotr32 st.h4 6 ^^^ rotr32 st.h4 11 ^^^ rotr32 st.h4 25
  let ch := (st.h4 &&& st.h5) ^^^ ((4294967295 ^^^ st.h4) &&& st.h6)
  let temp1 := w32 (st.h7 + S1 + ch + ki + wi)
  let S0 := rotr32 st.h0 2 ^^^ rotr32 st.h0 13 ^^^ rotr32 st.h0 22
  let maj := (st.h0 &&& st.h1) ^^^ (st.h0 &&& st.h2) ^^^ (st.h1 &&& st.h2)
  let temp2 := w32 (S0 + maj)
  ⟨w32 (temp1 + temp2), st.h0, st.h1, st.h2, w32 (st.h3 + temp1), st.h4, st.h5, st.h6⟩

/-- SHA-256 compression of one 64-byte block into the running hash state. -/
def sha256compress (st : Hash8) (block : List Nat) : Hash8 :=
  let ws := sha256schedule block
  let r := (List.zip sha256K ws).foldl (fun s p => sha256round s p.1 p.2) st
  ⟨w32 (st.h0 + r.h0), w32 (st.h1 + r.h1), w32 (st.h2 + r.h2), w32 (st.h3 + r.h3),
   w32 (st.h4 + r.h4), w32 (st.h5 + r.h5), w32 (st.h6 + r.h6), w32 (st.h7 + r.h7)⟩

/-- SHA-256 of a byte list, as a 32-byte list. -/
def sha256 (msg : List Nat) : List Nat :=
  let final := (chunks 64 (sha256pad msg)).foldl sha256compress sha256initH
  toBytesBE 4 final.h0 ++ toBytesBE 4 final.h1 ++ toBytesBE 4 final.h2 ++
  toBytesBE 4 final.h3 ++ toBytesBE 4 final.h4 ++ toBytesBE 4 final.h5 ++
  toBytesBE 4 final.h6 ++ toBytesBE 4 final.h7

/-- HMAC-SHA256 with a key of at most 64 bytes hashed or zero-padded to the block size. -/
def hmacSha256 (key msg : List Nat) : List Nat :=
  let key0 := if key.length > 64 then sha256 key else key
  let keyBlock := key0 ++ List.replicate (64 - key0.length) 0
  let ipad := keyBlock.map (fun b => b ^^^ 54)
  let opad := keyBlock.map (fun b => b ^^^ 92)
  sha256 (opad ++ sha256 (ipad ++ msg))

/-- AES S-box packed little-endian into one natural: byte i sits at bits 8i. -/
def aesSboxPacked : Nat := 2869618975290639062594974519597816386035077209210385677284518162336985023502962151465775969507961862820568736543004676439868535775640188584098917533413284844376797297285941524888791401501466624530423689326528054213168201056672989590893583853414110162539122864583953358348775951166211353578440977400428507475679327181038682772945817200201960445064847785221508011893952350688324234443749897213621340677040612747745615276448919507935121141307752692835344166708617454322778699219895865633266409040561742768581056182730443599545881830075941537620590442514083341749674612746994879540562701631131184186066652929592955206755

/-- S-box substitution of a byte. -/
def sboxGet (b : Nat) : Nat := (aesSboxPacked >>> (8 * b)) % 256

/-- Rotate a 32-bit word left by one byte (AES key schedule). -/
def aesRotWord (w : Nat) : Nat := w32 ((w <<< 8) ||| (w >>> 24))

/-- Apply the S-box to each byte of a 32-bit word. -/
def aesSubWord (w : Nat) : Nat :=
  (sboxGet ((w >>> 24) % 256) <<< 24) ||| (sboxGet ((w >>> 16) % 256) <<< 16) |||
  (sboxGet ((w >>> 8) % 256) <<< 8) ||| sboxGet (w % 256)

/-- AES key-schedule round constants for AES-256 (seven used). -/
def aesRcon : List Nat := [1, 2, 4, 8, 16, 32, 64]

/-- AES-256 key expansion of a 32-byte key into 60 32-bit words. -/
def aesKeyExpansion (key : List Nat) : List Nat :=
  let w8 := (chunks 4 key).map bytesToWordBE
  (List.range 52).foldl (fun w _ =>
    let i := w.length
    let t := w.getD (i - 1) 0
    let t :=
      if i % 8 == 0 then aesSubWord (aesRotWord t) ^^^ (aesRcon.getD (i / 8 - 1) 0 <<< 24)
      else if i % 8 == 4 then aesSubWord t
      else t
    w ++ [w.getD (i - 8) 0 ^^^ t]) w8

/-- Serialize a 32-bit word to four big-endian bytes. -/
def wordToBytes (w : Nat) : List Nat :=
  [(w >>> 24) % 256, (w >>> 16) % 256, (w >>> 8) % 256, w % 256]

/-- Extract the 16-byte round key number i from the expanded key schedule. -/
def aesRoundKey (sched : List Nat) (i : Nat) : List Nat :=
  wordToBytes (sched.getD (4 * i) 0) ++ wordToBytes (sched.getD (4 * i + 1) 0) ++
  wordToBytes (sched.getD (4 * i + 2) 0) ++ wordToBytes (sched.getD (4 * i + 3) 0)

/-- Multiplication by x in GF(2^8) modulo the AES polynomial. -/
def xtime (a : Nat) : Nat := ((a <<< 1) % 256) ^^^ (if a ≥ 128 then 27 else 0)

/-- Mix one AES column. -/
def aesMixCol (a0 a1 a2 a3 : Nat) : List Nat :=
  [xtime a0 ^^^ (xtime a1 ^^^ a1) ^^^ a2 ^^^ a3,
   a0 ^^^ xtime a1 ^^^ (xtime a2 ^^^ a2) ^^^ a3,
   a0 ^^^ a1 ^^^ xtime a2 ^^^ (xtime a3 ^^^ a3),
   (xtime a0 ^^^ a0) ^^^ a1 ^^^ a2 ^^^ xtime a3]

/-- MixColumns on the flat column-major 16-byte state. -/
def aesMixColumns (s : List Nat) : List Nat :=
  aesMixCol (s.getD 0 0) (s.getD 1 0) (s.getD 2 0) (s.getD 3 0) ++
  aesMixCol (s.getD 4 0) (s.getD 5 0) (s.getD 6 0) (s.getD 7 0) ++
  aesMixCol (s.getD 8 0) (s.getD 9 0) (s.getD 10 0) (s.getD 11 0) ++
  aesMixCol (s.getD 12 0) (s.getD 13 0) (s.getD 14 0) (s.getD 15 0)

/-- ShiftRows on the flat column-major 16-byte state. -/
def aesShiftRows (s : List Nat) : List Nat :=
  [s.getD 0 0, s.getD 5 0, s.getD 10 0, s.getD 15 0,
   s.getD 4 0, s.getD 9 0, s.getD 14 0, s.getD 3 0,
   s.getD 8 0, s.getD 13 0, s.getD 2 0, s.getD 7 0,
   s.getD 12 0, s.getD 1 0, s.getD 6 0, s.getD 11 0]

/-- SubBytes on the 16-byte state. -/
def aesSubBytes (s : List Nat) : List Nat := s.map sboxGet

/-- AddRoundKey: xor the state with a round key. -/
def aesAddRoundKey (s rk : List Nat) : List Nat := List.zipWith (fun a b => a ^^^ b) s rk

/-- AES-256 encryption of one 16-byte block with an expanded key schedule. -/
def aesEncryptBlock (sched : List Nat) (block : List Nat) : List Nat :=
  let s0 := aesAddRoundKey block (aesRoundKey sched 0)
  let s13 := (List.range 13).foldl (fun s r =>
    aesAddRoundKey (aesMixColumns (aesShiftRows (aesSubBytes s))) (aesRoundKey sched (r + 1))) s0
  aesAddRoundKey (aesShiftRows (aesSubBytes s13)) (aesRoundKey sched 14)

/-- AES-256 CTR-mode keystream: concatenated encryptions of the big-endian
128-bit counter blocks starting at zero, truncated to nbytes. -/
def aesCtrKeystream (key : List Nat) (nbytes : Nat) : List Nat :=
  let sched := aesKeyExpansion key
  (((List.range ((nbytes + 15) / 16)).map
      (fun i => aesEncryptBlock sched (toBytesBE 16 i))).flatten).take nbytes

/-! Shape lemmas for the AES primitives. -/

theorem length_toBytesBE (n v : Nat) : (toBytesBE n v).length = n := by
  simp [toBytesBE]

theorem length_aesRoundKey (sched : List Nat) (i : Nat) :
    (aesRoundKey sched i).length = 16 := by
  simp [aesRoundKey, wordToBytes]

theorem length_aesShiftRows (s : List Nat) : (aesShiftRows s).length = 16 := rfl

theorem length_aesEncryptBlock (sched b : List Nat) :
    (aesEncryptBlock sched b).length = 16 := by
  unfold aesEncryptBlock aesAddRoundKey
  rw [List.length_zipWith, length_aesShiftRows, length_aesRoundKey]
  simp

theorem chunksAux_congr {α : Type} (n : Nat) (hn : 1 ≤ n) :
    ∀ (f1 : Nat) (l : List α) (f2 : Nat), l.length ≤ f1 → l.length ≤ f2 →
      chunksAux f1 n l = chunksAux f2 n l := by
  intro f1
  induction f1 with
  | zero =>
    intro l f2 h1 _
    have : l = [] := List.length_eq_zero.mp (Nat.le_zero.mp h1)
    subst this
    cases f2 <;> rfl
  | succ f1 ih =>
    intro l f2 h1 h2
    cases l with
    | nil => cases f2 <;> rfl
    | cons a l =>
      cases f2 with
      | zero => exact absurd h2 (by simp)
      | succ f2 =>
        show (a :: l).take n :: _ = (a :: l).take n :: _
        have hd : ((a :: l).drop n).length ≤ f1 := by
          rw [List.length_drop]
          have := List.length_cons a l ▸ h1
          omega
        have hd2 : ((a :: l).drop n).length ≤ f2 := by
          rw [List.length_drop]
          have := List.length_cons a l ▸ h2
          omega
        rw [ih ((a :: l).drop n) f2 hd hd2]

theorem chunks_cons_of_length {α : Type} (l rest : List α) (h : l.length = 16) :
    chunks 16 (l ++ rest) = l :: chunks 16 rest := by
  unfold chunks
  have hlen : (l ++ rest).length = 16 + rest.length := by simp [h]
  have hpos : 0 < (l ++ rest).length := by omega
  obtain ⟨m, hm⟩ : ∃ m, (l ++ rest).length = m + 1 := ⟨(l ++ rest).length - 1, by omega⟩
  rw [hm]
  have hne : l ++ rest ≠ [] := by
    intro hc
    rw [hc] at hpos
    simp at hpos
  cases hl : l ++ rest with
  | nil => exact absurd hl hne
  | cons a t =>
    show (a :: t).take 16 :: chunksAux m 16 ((a :: t).drop 16) = _
    rw [← hl]
    have htake : (l ++ rest).take 16 = l := by
      rw [← h]
      exact List.take_left l rest
    have hdrop : (l ++ rest).drop 16 = rest := by
      rw [← h]
      exact List.drop_left l rest
    rw [htake, hdrop]
    rw [chunksAux_congr 16 (by omega) m rest rest.length (by omega) (le_refl _)]

theorem chunks_flatten16 {α : Type} (bs : List (List α))
    (h : ∀ b ∈ bs, b.length = 16) : chunks 16 bs.flatten = bs := by
  induction bs with
  | nil => rfl
  | cons b bs ih =>
    rw [List.flatten_cons, chunks_cons_of_length b bs.flatten (h b (by simp))]
    rw [ih (fun x hx => h x (by simp [hx]))]

theorem flatten_blocks_length {α : Type} (bs : List (List α))
    (h : ∀ b ∈ bs, b.length = 16) : bs.flatten.length = 16 * bs.length := by
  induction bs with
  | nil => simp
  | cons b bs ih =>
    rw [List.flatten_cons, List.length_append, h b (by simp),
      ih (fun x hx => h x (by simp [hx]))]
    simp [Nat.mul_succ, List.length_cons]
    omega

theorem aesCtrKeystream_full (key : List Nat) :
    aesCtrKeystream key 1536 =
      ((List.range 96).map
        (fun i => aesEncryptBlock (aesKeyExpansion key) (toBytesBE 16 i))).flatten := by
  unfold aesCtrKeystream
  have h96 : (1536 + 15) / 16 = 96 := by norm_num
  rw [h96]
  apply List.take_of_length_le
  rw [flatten_blocks_length]
  · simp
  · intro b hb
    simp only [List.mem_map] at hb
    obtain ⟨i, _, hi⟩ := hb
    rw [← hi]
    exact length_aesEncryptBlock _ _

/-! Concrete evaluation lemmas for the low-cost test vectors, staged so that
each AES block is evaluated exactly once. -/

/-- The all-zero 32-byte test key. -/
def key0Bytes : List Nat := List.replicate 32 0

/-- SHA-256 of the all-zero key, as listed in the specification. -/
def key1Bytes : List Nat :=
  [102, 104, 122, 173, 248, 98, 189, 119, 108, 143, 193, 139, 142, 159, 142, 32,
   8, 151, 20, 133, 110, 226, 51, 179, 144, 42, 89, 29, 13, 95, 41, 37]

/-- SHA-256 of key1Bytes, as listed in the specification. -/
def key2Bytes : List Nat :=
  [43, 50, 219, 108, 44, 10, 98, 53, 251, 19, 151, 232, 34, 94, 168, 94,
   15, 14, 110, 140, 123, 18, 109, 0, 22, 204, 189, 224, 230, 103, 21, 30]

/-- ASCII bytes of the string "broadcast key". -/
def BROADCAST_KEY : List Nat := [98, 114, 111, 97, 100, 99, 97, 115, 116, 32, 107, 101, 121]

theorem sha256_key0 : sha256 key0Bytes = key1Bytes := by decide

theorem sha256_key1 : sha256 key1Bytes = key2Bytes := by decide

/-- HMAC-SHA256 stream key derived from key1Bytes. -/
def streamKey1 : List Nat :=
  [101, 148, 128, 238, 125, 109, 149, 167, 4, 193, 87, 210, 16, 138, 218, 120,
   156, 15, 89, 89, 12, 212, 43, 185, 87, 179, 237, 191, 170, 221, 135, 123]

theorem hmac_key1 : hmacSha256 key1Bytes BROADCAST_KEY = streamKey1 := by decide

/-- Expanded AES-256 key schedule of streamKey1. -/
def sched1 : List Nat :=
  [1704231150, 2104333735, 79779794, 277535352, 2618251609, 215231417, 1471409599, 2866644859,
   2776867138, 3639489765, 3694093111, 3433412943, 3607695325, 3688703076, 2356070875, 649285280,
   3400286645, 306345296, 3463255655, 46706472, 2699130601, 2067550861, 4149386070, 3521238518,
   917439371, 619542235, 3934281916, 3897085844, 1001651403, 1083158086, 3084727568, 1715265766,
   3578695096, 4054055779, 455318495, 4083897419, 919395448, 1984131646, 3248375598, 2812454856,
   4279395812, 246521479, 361891160, 3875098899, 3092581637, 3457580859, 260585493, 2821365725,
   986293286, 880294561, 568999929, 3339939562, 2116588162, 2956914105, 3216430508, 396118641,
   2753497046, 2422685047, 2978808462, 1990093924]

theorem keyExpansion_streamKey1 : aesKeyExpansion streamKey1 = sched1 := by decide

/-- First three EphIDs of the day keyed by key1Bytes, as listed in the specification. -/
def ephid1_0 : List Nat := [4, 202, 183, 106, 245, 124, 163, 115, 222, 29, 82, 104, 159, 174, 6, 193]

/-- Second test-vector EphID. -/
def ephid1_1 : List Nat := [171, 119, 71, 8, 78, 251, 116, 58, 106, 161, 177, 155, 171, 47, 12, 163]

/-- Third test-vector EphID. -/
def ephid1_2 : List Nat := [244, 23, 193, 98, 121, 215, 247, 24, 70, 95, 149, 142, 23, 70, 101, 80]

theorem aesBlock1_0 : aesEncryptBlock sched1 (toBytesBE 16 0) = ephid1_0 := by decide

theorem aesBlock1_1 : aesEncryptBlock sched1 (toBytesBE 16 1) = ephid1_1 := by decide

theorem aesBlock1_2 : aesEncryptBlock sched1 (toBytesBE 16 2) = ephid1_2 := by decide

/-!
Global protocol constants shared by all DP3T designs, from dp3t/config.py
and the protocol modules.
-/

/-- Retention period in days. -/
def RETENTION_PERIOD : Nat := 21

/-- Length of an epoch in minutes. -/
def EPOCH_LENGTH : Nat := 15

/-- Number of epochs in a day. -/
def NUM_EPOCHS_PER_DAY : Nat := 1440 / EPOCH_LENGTH

/-- Length of an EphID in bytes. -/
def LENGTH_EPHID : Nat := 16

/-- Seconds in a UNIX epoch day. -/
def SECONDS_PER_DAY : Int := 24 * 60 * 60

/-- Length of a batch in seconds (2 hours, low-cost design only). -/
def SECONDS_PER_BATCH : Int := 2 * 60 * 60

/-- Type of the shuffle oracle standing for secure_shuffle: it receives the
list to be shuffled and returns the shuffled list. Theorems that rely on it
being a shuffle assume it permutes its argument. -/
def ShuffleFn : Type := List (List Nat) → List (List Nat)

/-- Errors surfaced by the tracers (all ValueError in the Python source). -/
inductive Err where
  | unavailableEphID
  | outOfDayObservation
  | unavailableTracingKey
  | notBatchAligned
  | invalidRange
deriving DecidableEq, Repr

/-! Insertion-ordered dictionaries, modelling Python dict semantics: updating
an existing key keeps its position, a new key is appended at the end. -/

/-- Containment test for a key. -/
def dictMem {β : Type} (k : Int) (d : List (Int × β)) : Bool :=
  d.any (fun p => p.1 == k)

/-- Look up the value stored under a key. -/
def dictLookup {β : Type} (k : Int) (d : List (Int × β)) : Option β :=
  (d.find? (fun p => p.1 == k)).map (fun p => p.2)

/-- Python's pattern of ensuring a default entry and mutating it: when k is
present apply f to its value in place; otherwise append f applied to the
default value. -/
def dictUpd {β : Type} (k : Int) (f : β → β) (dflt : β) (d : List (Int × β)) :
    List (Int × β) :=
  if dictMem k d then d.map (fun p => if p.1 == k then (p.1, f p.2) else p)
  else d ++ [(k, f dflt)]

/-- Python assignment d[k] = v: replace in place or append. -/
def dictSet {β : Type} (k : Int) (v : β) (d : List (Int × β)) : List (Int × β) :=
  dictUpd k (fun _ => v) v d

/-- Python's "if k not in d: d[k] = v" idiom on its own. -/
def dictEnsure {β : Type} (k : Int) (v : β) (d : List (Int × β)) : List (Int × β) :=
  if dictMem k d then d else d ++ [(k, v)]

namespace Lowcost

/-- Return the first UNIX epoch second of the day containing time t
(day_start_from_time in lowcost.py). -/
def day_start_from_time (t : Int) : Int := (t / SECONDS_PER_DAY) * SECONDS_PER_DAY

/-- Return the first UNIX epoch second of the batch containing time t
(batch_start_from_time in lowcost.py). -/
def batch_start_from_time (t : Int) : Int := (t / SECONDS_PER_BATCH) * SECONDS_PER_BATCH

/-- Compute the key of the next day from the current key (next_day_key in
lowcost.py): a single SHA-256. -/
def next_day_key (current_day_key : List Nat) : List Nat := sha256 current_day_key

/-- Generate the list of EphIDs of a day (generate_ephids_for_day in
lowcost.py): HMAC the day key with the broadcast-key string, expand via
AES-CTR, slice into 16-byte EphIDs, optionally shuffle. -/
def generate_ephids_for_day (sh : ShuffleFn) (current_day_key : List Nat)
    (shuffle : Bool) : List (List Nat) :=
  let stream_key := hmacSha256 current_day_key BROADCAST_KEY
  let prg_output_bytes := aesCtrKeystream stream_key (LENGTH_EPHID * NUM_EPOCHS_PER_DAY)
  let ephids := chunks LENGTH_EPHID prg_output_bytes
  if shuffle then sh ephids else ephids

theorem generate_ephids_unshuffled (sh : ShuffleFn) (key : List Nat) :
    generate_ephids_for_day sh key false =
      (List.range 96).map
        (fun i => aesEncryptBlock (aesKeyExpansion (hmacSha256 key BROADCAST_KEY))
          (toBytesBE 16 i)) := by
  unfold generate_ephids_for_day
  have h1 : LENGTH_EPHID * NUM_EPOCHS_PER_DAY = 1536 := by decide
  rw [h1]
  have h2 : LENGTH_EPHID = 16 := by decide
  rw [h2, if_neg (by simp)]
  rw [aesCtrKeystream_full, chunks_flatten16]
  intro b hb
  simp only [List.mem_map] at hb
  obtain ⟨i, _, hi⟩ := hb
  rw [← hi]
  exact length_aesEncryptBlock _ _

theorem generate_ephids_shuffled (sh : ShuffleFn) (key : List Nat) :
    generate_ephids_for_day sh key true =
      sh (generate_ephids_for_day sh key false) := by
  unfold generate_ephids_for_day
  simp

/-- Internal state of the low-cost ContactTracer. -/
structure State where
  past_keys : List (List Nat)
  observations : List (Int × List (List Nat))
  start_of_today : Int
  current_day_key : List Nat
  current_ephids : List (List Nat)
deriving DecidableEq

/-- ContactTracer.__init__ with an explicit start time; the fresh random day
key is the freshKey oracle argument. -/
def init (startTime : Int) (freshKey : List Nat) (sh : ShuffleFn) : State :=
  { past_keys := []
    observations := []
    start_of_today := day_start_from_time startTime
    current_day_key := freshKey
    current_ephids := generate_ephids_for_day sh freshKey true }

/-- ContactTracer.next_day: archive the key, advance the chain, regenerate
EphIDs, advance the day, and delete observations beyond retention. -/
def next_day (sh : ShuffleFn) (s : State) : State :=
  let past_keys := (s.current_day_key :: s.past_keys).take RETENTION_PERIOD
  let current_day_key := next_day_key s.current_day_key
  let current_ephids := generate_ephids_for_day sh current_day_key true
  let start_of_today := s.start_of_today + SECONDS_PER_DAY
  let last_retained := start_of_today - (RETENTION_PERIOD : Int) * SECONDS_PER_DAY
  let observations := s.observations.filter (fun p => !decide (p.1 < last_retained))
  { past_keys := past_keys
    observations := observations
    start_of_today := start_of_today
    current_day_key := current_day_key
    current_ephids := current_ephids }

/-- ContactTracer.get_ephid_for_time: only times of the current day succeed. -/
def get_ephid_for_time (s : State) (t : Int) : Except Err (List Nat) :=
  let day_start := day_start_from_time t
  if day_start ≠ s.start_of_today then .error .unavailableEphID
  else
    let epoch := (t - day_start) / ((EPOCH_LENGTH : Int) * 60)
    .ok (s.current_ephids.getD epoch.toNat [])

/-- ContactTracer.add_observation: store the EphID under the batch-aligned
receive time, shuffling the bucket; out-of-day times raise before mutation.
The first component is the Python return or exception, the second the state
of the tracer object after the call. -/
def add_observation (sh : ShuffleFn) (ephid : List Nat) (t : Int) (s : State) :
    Except Err Unit × State :=
  let batch_start := batch_start_from_time t
  let end_of_today := s.start_of_today + SECONDS_PER_DAY
  if ¬ (s.start_of_today ≤ batch_start ∧ batch_start < end_of_today) then
    (.error .outOfDayObservation, s)
  else
    (.ok (), { s with
      observations := dictUpd batch_start (fun bag => sh (bag ++ [ephid])) [] s.observations })

/-- ContactTracer.get_tracing_information: return the day key covering
first_contagious_time; with reset_key_after_release, pick the fresh random
key, regenerate EphIDs and destroy the key history. -/
def get_tracing_information (sh : ShuffleFn) (freshKey : List Nat)
    (first_contagious_time : Int) (reset_key_after_release : Bool) (s : State) :
    Except Err (Int × List Nat) × State :=
  let start_contagious_day := day_start_from_time first_contagious_time
  let nr_days_back := (s.start_of_today - start_contagious_day) / SECONDS_PER_DAY
  if nr_days_back > (s.past_keys.length : Int) ∨ nr_days_back < 0 then
    (.error .unavailableTracingKey, s)
  else
    let tracing_key :=
      if nr_days_back = 0 then s.current_day_key
      else s.past_keys.getD (nr_days_back - 1).toNat []
    let s' :=
      if reset_key_after_release then
        { s with
          current_day_key := freshKey
          current_ephids := generate_ephids_for_day sh freshKey true
          past_keys := [] }
      else s
    (.ok (start_contagious_day, tracing_key), s')

/-- ContactTracer._reconstruct_ephids, unrolled with explicit fuel: for each
day from start_time while the day is at most end_time, the EphID list of the
running key, advancing the key by one hash per day. -/
def reconstructAux (sh : ShuffleFn) : Nat → List Nat → Int → Int → List (Int × List (List Nat))
  | 0, _, _, _ => []
  | fuel + 1, key, day, end_time =>
    if day ≤ end_time then
      (day, generate_ephids_for_day sh key true) ::
        reconstructAux sh fuel (next_day_key key) (day + SECONDS_PER_DAY) end_time
    else []

/-- ContactTracer._reconstruct_ephids with fuel covering the whole range. -/
def reconstruct_ephids (sh : ShuffleFn) (key : List Nat) (start_time end_time : Int) :
    List (Int × List (List Nat)) :=
  reconstructAux sh (((end_time - start_time) / SECONDS_PER_DAY + 1).toNat) key start_time end_time

/-- ContactTracer.matches_with_key: count epochs in which an EphID of the
infected person was observed, ignoring buckets received at or after the
release time of the key. -/
def matches_with_key (sh : ShuffleFn) (key : List Nat) (start_time release_time : Int)
    (s : State) : Nat :=
  let ephids_per_day := reconstruct_ephids sh key start_time release_time
  s.observations.foldl (fun acc p =>
    if release_time ≤ p.1 then acc
    else
      match dictLookup ((p.1 / SECONDS_PER_DAY) * SECONDS_PER_DAY) ephids_per_day with
      | none => acc
      | some ephids => acc + ephids.countP (fun e => decide (e ∈ p.2))) 0

/-- TracingDataBatch of the low-cost design. -/
structure TracingDataBatch where
  release_time : Int
  time_key_pairs : List (Int × List Nat)
deriving DecidableEq

/-- TracingDataBatch.__init__ with an explicit release time: the release time
must be batch-aligned. -/
def TracingDataBatch.create (time_key_pairs : List (Int × List Nat))
    (release_time : Int) : Except Err TracingDataBatch :=
  if release_time % SECONDS_PER_BATCH ≠ 0 then .error .notBatchAligned
  else .ok ⟨release_time, time_key_pairs⟩

/-- ContactTracer.housekeeping_after_batch: move observation buckets received
before the batch release time to day granularity, merging and reshuffling. -/
def housekeeping_after_batch (sh : ShuffleFn) (batch : TracingDataBatch) (s : State) : State :=
  let update_list := s.observations.filter
    (fun p => decide (p.1 < batch.release_time ∧ p.1 % SECONDS_PER_DAY ≠ 0))
  let kept := s.observations.filter
    (fun p => !decide (p.1 < batch.release_time ∧ p.1 % SECONDS_PER_DAY ≠ 0))
  let observations := update_list.foldl (fun obs p =>
    dictUpd ((p.1 / SECONDS_PER_DAY) * SECONDS_PER_DAY) (fun bag => sh (bag ++ p.2)) [] obs) kept
  { s with observations := observations }

end Lowcost

namespace Unlinkable

/-- Type of the per-day fresh seed oracle: seed number i of the new day. -/
def SeedFn : Type := Nat → List Nat

/-- Compute the epoch number of a time (epoch_from_time in unlinkable.py):
epochs counted from the UNIX epoch. -/
def epoch_from_time (t : Int) : Int := t / ((EPOCH_LENGTH : Int) * 60)

/-- Compute the EphID of a seed (ephid_from_seed in unlinkable.py): the first
16 bytes of its SHA-256. -/
def ephid_from_seed (seed : List Nat) : List Nat := (sha256 seed).take LENGTH_EPHID

/-- Compute the hashed observation SHA256(ephid || epoch_be32)
(hashed_observation_from_ephid in unlinkable.py). -/
def hashed_observation_from_ephid (ephid : List Nat) (epoch : Int) : List Nat :=
  sha256 (ephid ++ toBytesBE 4 epoch.toNat)

/-- Compute the hashed observation of a seed (hashed_observation_from_seed in
unlinkable.py). -/
def hashed_observation_from_seed (seed : List Nat) (epoch : Int) : List Nat :=
  hashed_observation_from_ephid (ephid_from_seed seed) epoch

/-- Internal state of the unlinkable ContactTracer. Dates are represented by
their day number (UNIX seconds divided by 86400, UTC). -/
structure State where
  seeds_per_epoch : List (Int × List Nat)
  ephids_per_epoch : List (Int × List Nat)
  observations_per_day : List (Int × List (List Nat))
  start_of_today : Int
deriving DecidableEq

/-- The current day number (the today property). -/
def today (s : State) : Int := s.start_of_today / SECONDS_PER_DAY

/-- ContactTracer._create_new_day_ephids: draw 96 fresh seeds, derive their
EphIDs, and store both under the epochs of the day starting at
start_of_today. -/
def create_new_day_ephids (fresh : SeedFn) (s : State) : State :=
  let seeds := (List.range NUM_EPOCHS_PER_DAY).map fresh
  let ephids := seeds.map ephid_from_seed
  let first_epoch := epoch_from_time s.start_of_today
  (List.range NUM_EPOCHS_PER_DAY).foldl (fun st (i : Nat) =>
    { st with
      seeds_per_epoch := dictSet (first_epoch + (i : Int)) (seeds.getD i []) st.seeds_per_epoch
      ephids_per_epoch :=
        dictSet (first_epoch + (i : Int)) (ephids.getD i []) st.ephids_per_epoch }) s

/-- ContactTracer.__init__ with an explicit start time (the Python code uses
the given start_time as-is; only the defaulted value is floored to
midnight). -/
def init (startTime : Int) (fresh : SeedFn) : State :=
  create_new_day_ephids fresh
    { seeds_per_epoch := []
      ephids_per_epoch := []
      observations_per_day := []
      start_of_today := startTime }

/-- ContactTracer.next_day: advance the day, create fresh seeds and EphIDs,
drop observations beyond the day retention window, and drop seeds and EphIDs
of epochs beyond the epoch retention window. -/
def next_day (fresh : SeedFn) (s : State) : State :=
  let s1 := { s with start_of_today := s.start_of_today + SECONDS_PER_DAY }
  let s2 := create_new_day_ephids fresh s1
  let last_retained_day := today s2 - (RETENTION_PERIOD : Int)
  let observations := s2.observations_per_day.filter
    (fun p => !decide (p.1 < last_retained_day))
  let last_retained_epoch :=
    epoch_from_time (s2.start_of_today - (RETENTION_PERIOD : Int) * SECONDS_PER_DAY)
  let old_epochs := (s2.seeds_per_epoch.filter
    (fun p => decide (p.1 < last_retained_epoch))).map (fun p => p.1)
  { s2 with
    observations_per_day := observations
    seeds_per_epoch := s2.seeds_per_epoch.filter (fun p => !old_epochs.contains p.1)
    ephids_per_epoch := s2.ephids_per_epoch.filter (fun p => !old_epochs.contains p.1) }

/-- ContactTracer.get_ephid_for_time: look the epoch up in the stored
EphIDs. -/
def get_ephid_for_time (s : State) (t : Int) : Except Err (List Nat) :=
  let epoch := epoch_from_time t
  match dictLookup epoch s.ephids_per_epoch with
  | none => .error .unavailableEphID
  | some e => .ok e

/-- ContactTracer.add_observation. Mirrors the Python control flow exactly:
the empty bucket for today is inserted before the current-day check, so an
erroring call can still extend the observation map. The first component is
the Python return or exception, the second the state of the tracer object
after the call. -/
def add_observation (ephid : List Nat) (t : Int) (s : State) : Except Err Unit × State :=
  let s1 := { s with observations_per_day := dictEnsure (today s) [] s.observations_per_day }
  if ¬ (t / SECONDS_PER_DAY = today s) then (.error .outOfDayObservation, s1)
  else
    let epoch := epoch_from_time t
    let hashed := hashed_observation_from_ephid ephid epoch
    (.ok (), { s1 with
      observations_per_day := dictUpd (today s) (fun l => l ++ [hashed]) [] s1.observations_per_day })

/-- ContactTracer.get_tracing_seeds_for_epochs: look up each requested epoch,
failing on the first missing one. -/
def get_tracing_seeds_for_epochs (s : State) : List Int → Except Err (List (List Nat))
  | [] => .ok []
  | e :: rest =>
    match dictLookup e s.seeds_per_epoch with
    | none => .error .unavailableTracingKey
    | some seed =>
      match get_tracing_seeds_for_epochs s rest with
      | .error err => .error err
      | .ok seeds => .ok (seed :: seeds)

/-- List of consecutive integers from a (inclusive) to b (exclusive). -/
def rangeInt (a b : Int) : List Int := (List.range (b - a).toNat).map (fun i => a + (i : Int))

/-- ContactTracer.get_tracing_information with an explicit last time. The
function reads state but never writes it; the returned state is the object
state after the call. -/
def get_tracing_information (first_contagious_time last_contagious_time : Int)
    (s : State) : Except Err (List Int × List (List Nat)) × State :=
  if last_contagious_time < first_contagious_time then (.error .invalidRange, s)
  else
    let start_epoch := epoch_from_time first_contagious_time
    let end_epoch := epoch_from_time last_contagious_time
    let reported_epochs := rangeInt start_epoch (end_epoch + 1)
    match get_tracing_seeds_for_epochs s reported_epochs with
    | .error err => (.error err, s)
    | .ok seeds => (.ok (reported_epochs, seeds), s)

end Unlinkable

/-! Generic list and dictionary lemmas used by several claims. -/

theorem getD_map_range {β : Type} (f : Nat → β) (d : β) (n k : Nat) (h : k < n) :
    ((List.range n).map f).getD k d = f k := by
  rw [List.getD_eq_getElem?_getD, List.getElem?_map, List.getElem?_range h]
  rfl

theorem dictLookup_cons_eq {β : Type} (p : Int × β) (d : List (Int × β)) (k : Int)
    (h : p.1 = k) : dictLookup k (p :: d) = some p.2 := by
  simp [dictLookup, List.find?_cons_of_pos, h]

theorem dictLookup_cons_ne {β : Type} (p : Int × β) (d : List (Int × β)) (k : Int)
    (h : p.1 ≠ k) : dictLookup k (p :: d) = dictLookup k d := by
  simp only [dictLookup]
  rw [List.find?_cons_of_neg]
  simp [h]

theorem dictLookup_eq_none_iff {β : Type} (k : Int) (d : List (Int × β)) :
    dictLookup k d = none ↔ ∀ p ∈ d, p.1 ≠ k := by
  simp [dictLookup, List.find?_eq_none]

theorem dictMem_eq_false_iff {β : Type} (k : Int) (d : List (Int × β)) :
    dictMem k d = false ↔ ∀ p ∈ d, p.1 ≠ k := by
  simp [dictMem]

theorem dictSet_of_not_mem {β : Type} (k : Int) (v : β) (d : List (Int × β))
    (h : dictMem k d = false) : dictSet k v d = d ++ [(k, v)] := by
  simp [dictSet, dictUpd, h]

theorem dictLookup_map_replace {β : Type} (k k' : Int) (f : β → β) (d : List (Int × β))
    (h : k' ≠ k) :
    dictLookup k' (d.map (fun p => if p.1 == k then (p.1, f p.2) else p)) =
      dictLookup k' d := by
  induction d with
  | nil => rfl
  | cons p d ih =>
    by_cases hp : p.1 = k
    · rw [List.map_cons, if_pos (by simp [hp])]
      rw [dictLookup_cons_ne _ _ _ (by simp [hp]; omega), dictLookup_cons_ne _ _ _ (by omega)]
      exact ih
    · rw [List.map_cons, if_neg (by simp [hp])]
      by_cases hpk : p.1 = k'
      · rw [dictLookup_cons_eq _ _ _ hpk, dictLookup_cons_eq _ _ _ hpk]
      · rw [dictLookup_cons_ne _ _ _ hpk, dictLookup_cons_ne _ _ _ hpk]
        exact ih

theorem dictLookup_map_replace_self {β : Type} (k : Int) (f : β → β) (d : List (Int × β))
    (h : dictMem k d = true) :
    ∃ w, dictLookup k (d.map (fun p => if p.1 == k then (p.1, f p.2) else p)) = some (f w) := by
  induction d with
  | nil => simp [dictMem] at h
  | cons p d ih =>
    by_cases hp : p.1 = k
    · refine ⟨p.2, ?_⟩
      rw [List.map_cons, if_pos (by simp [hp])]
      exact dictLookup_cons_eq _ _ _ hp
    · have h' : dictMem k d = true := by
        simp [dictMem] at h ⊢
        rcases h with h | h
        · exact absurd h hp
        · exact h
      obtain ⟨w, hw⟩ := ih h'
      refine ⟨w, ?_⟩
      rw [List.map_cons, if_neg (by simp [hp]), dictLookup_cons_ne _ _ _ hp]
      exact hw

theorem dictLookup_append_single_ne {β : Type} (k k' : Int) (v : β) (d : List (Int × β))
    (h : k' ≠ k) : dictLookup k' (d ++ [(k, v)]) = dictLookup k' d := by
  induction d with
  | nil =>
    simp only [List.nil_append]
    rw [dictLookup_cons_ne _ _ _ (by omega)]
  | cons p d ih =>
    by_cases hp : p.1 = k'
    · rw [List.cons_append, dictLookup_cons_eq _ _ _ hp, dictLookup_cons_eq _ _ _ hp]
    · rw [List.cons_append, dictLookup_cons_ne _ _ _ hp, dictLookup_cons_ne _ _ _ hp]
      exact ih

theorem dictLookup_set_self {β : Type} (k : Int) (v : β) (d : List (Int × β)) :
    dictLookup k (dictSet k v d) = some v := by
  by_cases h : dictMem k d
  · simp only [dictSet, dictUpd, if_pos h]
    obtain ⟨w, hw⟩ := dictLookup_map_replace_self k (fun _ => v) d h
    exact hw
  · rw [dictSet_of_not_mem k v d (by simp at h; simp [h])]
    induction d with
    | nil =>
      simp only [List.nil_append]
      exact dictLookup_cons_eq _ _ _ rfl
    | cons p d ih =>
      have hp : p.1 ≠ k := by
        simp [dictMem] at h
        exact h.1
      rw [List.cons_append, dictLookup_cons_ne _ _ _ hp]
      apply ih
      simp [dictMem] at h ⊢
      exact h.2

theorem dictLookup_set_ne {β : Type} (k k' : Int) (v : β) (d : List (Int × β))
    (h : k' ≠ k) : dictLookup k' (dictSet k v d) = dictLookup k' d := by
  by_cases hm : dictMem k d
  · simp only [dictSet, dictUpd, if_pos hm]
    exact dictLookup_map_replace k k' (fun _ => v) d h
  · rw [dictSet_of_not_mem k v d (by simp at hm; simp [hm])]
    exact dictLookup_append_single_ne k k' v d h

theorem numEpochs_eq : NUM_EPOCHS_PER_DAY = 96 := by decide

theorem foldl_dictSet_range_map {β : Type} (first : Int) (g : Nat → β) :
    ∀ n : Nat,
      (List.range n).foldl (fun acc (i : Nat) => dictSet (first + (i : Int)) (g i) acc) [] =
        (List.range n).map (fun (i : Nat) => (first + (i : Int), g i)) := by
  intro n
  induction n with
  | zero => rfl
  | succ n ih =>
    rw [List.range_succ, List.foldl_append, List.foldl_cons, List.foldl_nil, ih,
      List.map_append]
    have hmem : dictMem (first + (n : Int))
        ((List.range n).map (fun (i : Nat) => (first + (i : Int), g i))) = false := by
      rw [dictMem_eq_false_iff]
      intro p hp
      simp only [List.mem_map, List.mem_range] at hp
      obtain ⟨j, hj, rfl⟩ := hp
      simp only [ne_eq]
      intro hc
      have : (j : Int) = (n : Int) := by omega
      omega
    rw [dictSet_of_not_mem _ _ _ hmem]
    simp

theorem foldl_dictSet_lookup {β : Type} (first : Int) (g : Nat → β) :
    ∀ (n : Nat) (d : List (Int × β)) (i : Nat), i < n →
      dictLookup (first + (i : Int))
        ((List.range n).foldl (fun acc (j : Nat) => dictSet (first + (j : Int)) (g j) acc) d) =
        some (g i) := by
  intro n
  induction n with
  | zero => intro d i h; omega
  | succ n ih =>
    intro d i h
    rw [List.range_succ, List.foldl_append, List.foldl_cons, List.foldl_nil]
    by_cases hi : i = n
    · subst hi
      exact dictLookup_set_self _ _ _
    · have hne : first + (i : Int) ≠ first + (n : Int) := by
        intro hc
        omega
      rw [dictLookup_set_ne _ _ _ _ hne]
      exact ih d i (by omega)

namespace Unlinkable

theorem create_fold_split (first : Int) (seeds ephids : List (List Nat)) :
    ∀ (l : List Nat) (st : State),
      l.foldl (fun st (i : Nat) =>
        { st with
          seeds_per_epoch := dictSet (first + (i : Int)) (seeds.getD i []) st.seeds_per_epoch
          ephids_per_epoch :=
            dictSet (first + (i : Int)) (ephids.getD i []) st.ephids_per_epoch }) st =
      { st with
        seeds_per_epoch := l.foldl
          (fun acc (i : Nat) => dictSet (first + (i : Int)) (seeds.getD i []) acc)
          st.seeds_per_epoch
        ephids_per_epoch := l.foldl
          (fun acc (i : Nat) => dictSet (first + (i : Int)) (ephids.getD i []) acc)
          st.ephids_per_epoch } := by
  intro l
  induction l with
  | nil => intro st; rfl
  | cons a l ih =>
    intro st
    rw [List.foldl_cons, List.foldl_cons, List.foldl_cons, ih]

theorem create_ephids_eq (fresh : SeedFn) (s : State) :
    create_new_day_ephids fresh s =
      { s with
        seeds_per_epoch := (List.range 96).foldl
          (fun acc (i : Nat) => dictSet (epoch_from_time s.start_of_today + (i : Int))
            (fresh i) acc) s.seeds_per_epoch
        ephids_per_epoch := (List.range 96).foldl
          (fun acc (i : Nat) => dictSet (epoch_from_time s.start_of_today + (i : Int))
            (ephid_from_seed (fresh i)) acc) s.ephids_per_epoch } := by
  unfold create_new_day_ephids
  simp only [numEpochs_eq]
  rw [create_fold_split]
  have h1 : (List.range 96).foldl
      (fun acc (i : Nat) => dictSet (epoch_from_time s.start_of_today + (i : Int))
        (((List.range 96).map fresh).getD i []) acc) s.seeds_per_epoch =
    (List.range 96).foldl
      (fun acc (i : Nat) => dictSet (epoch_from_time s.start_of_today + (i : Int))
        (fresh i) acc) s.seeds_per_epoch := by
    apply List.foldl_ext
    intro acc x hx
    rw [getD_map_range _ _ 96 x (List.mem_range.mp hx)]
  have h2 : (List.range 96).foldl
      (fun acc (i : Nat) => dictSet (epoch_from_time s.start_of_today + (i : Int))
        ((((List.range 96).map fresh).map ephid_from_seed).getD i []) acc) s.ephids_per_epoch =
    (List.range 96).foldl
      (fun acc (i : Nat) => dictSet (epoch_from_time s.start_of_today + (i : Int))
        (ephid_from_seed (fresh i)) acc) s.ephids_per_epoch := by
    apply List.foldl_ext
    intro acc x hx
    rw [List.map_map, getD_map_range _ _ 96 x (List.mem_range.mp hx)]
    rfl
  rw [h1, h2]

theorem foldl_state_proj (first : Int) (seeds ephids : List (List Nat)) :
    ∀ (l : List Nat) (st : State),
      ((l.foldl (fun st (i : Nat) =>
          { st with
            seeds_per_epoch := dictSet (first + (i : Int)) (seeds.getD i []) st.seeds_per_epoch
            ephids_per_epoch :=
              dictSet (first + (i : Int)) (ephids.getD i []) st.ephids_per_epoch }) st).seeds_per_epoch =
        l.foldl (fun acc (i : Nat) => dictSet (first + (i : Int)) (seeds.getD i []) acc)
          st.seeds_per_epoch) ∧
      ((l.foldl (fun st (i : Nat) =>
          { st with
            seeds_per_epoch := dictSet (first + (i : Int)) (seeds.getD i []) st.seeds_per_epoch
            ephids_per_epoch :=
              dictSet (first + (i : Int)) (ephids.getD i []) st.ephids_per_epoch }) st).ephids_per_epoch =
        l.foldl (fun acc (i : Nat) => dictSet (first + (i : Int)) (ephids.getD i []) acc)
          st.ephids_per_epoch) ∧
      ((l.foldl (fun st (i : Nat) =>
          { st with
            seeds_per_epoch := dictSet (first + (i : Int)) (seeds.getD i []) st.seeds_per_epoch
            ephids_per_epoch :=
              dictSet (first + (i : Int)) (ephids.getD i []) st.ephids_per_epoch }) st).observations_per_day =
        st.observations_per_day) ∧
      ((l.foldl (fun st (i : Nat) =>
          { st with
            seeds_per_epoch := dictSet (first + (i : Int)) (seeds.getD i []) st.seeds_per_epoch
            ephids_per_epoch :=
              dictSet (first + (i : Int)) (ephids.getD i []) st.ephids_per_epoch }) st).start_of_today =
        st.start_of_today) := by
  intro l
  induction l with
  | nil => intro st; exact ⟨rfl, rfl, rfl, rfl⟩
  | cons a l ih =>
    intro st
    exact ih _

theorem create_ephids_field (fresh : SeedFn) (s : State) :
    (create_new_day_ephids fresh s).ephids_per_epoch =
      (List.range 96).foldl
        (fun acc (i : Nat) => dictSet (epoch_from_time s.start_of_today + (i : Int))
          (ephid_from_seed (fresh i)) acc) s.ephids_per_epoch := by
  unfold create_new_day_ephids
  simp only [numEpochs_eq]
  rw [(foldl_state_proj (epoch_from_time s.start_of_today) ((List.range 96).map fresh)
    (((List.range 96).map fresh).map ephid_from_seed) (List.range 96) s).2.1]
  apply List.foldl_ext
  intro acc x hx
  rw [List.map_map, getD_map_range _ _ 96 x (List.mem_range.mp hx)]
  rfl

theorem create_seeds_field (fresh : SeedFn) (s : State) :
    (create_new_day_ephids fresh s).seeds_per_epoch =
      (List.range 96).foldl
        (fun acc (i : Nat) => dictSet (epoch_from_time s.start_of_today + (i : Int))
          (fresh i) acc) s.seeds_per_epoch := by
  unfold create_new_day_ephids
  simp only [numEpochs_eq]
  rw [(foldl_state_proj (epoch_from_time s.start_of_today) ((List.range 96).map fresh)
    (((List.range 96).map fresh).map ephid_from_seed) (List.range 96) s).1]
  apply List.foldl_ext
  intro acc x hx
  rw [getD_map_range _ _ 96 x (List.mem_range.mp hx)]

theorem create_obs_field (fresh : SeedFn) (s : State) :
    (create_new_day_ephids fresh s).observations_per_day = s.observations_per_day := by
  unfold create_new_day_ephids
  simp only [numEpochs_eq]
  exact (foldl_state_proj (epoch_from_time s.start_of_today) ((List.range 96).map fresh)
    (((List.range 96).map fresh).map ephid_from_seed) (List.range 96) s).2.2.1

theorem create_start_field (fresh : SeedFn) (s : State) :
    (create_new_day_ephids fresh s).start_of_today = s.start_of_today := by
  unfold create_new_day_ephids
  simp only [numEpochs_eq]
  exact (foldl_state_proj (epoch_from_time s.start_of_today) ((List.range 96).map fresh)
    (((List.range 96).map fresh).map ephid_from_seed) (List.range 96) s).2.2.2

theorem init_state_eq (startTime : Int) (fresh : SeedFn) :
    init startTime fresh =
      { seeds_per_epoch := (List.range 96).map
          (fun (i : Nat) => (epoch_from_time startTime + (i : Int), fresh i))
        ephids_per_epoch := (List.range 96).map
          (fun (i : Nat) => (epoch_from_time startTime + (i : Int), ephid_from_seed (fresh i)))
        observations_per_day := []
        start_of_today := startTime } := by
  unfold init
  rw [create_ephids_eq]
  simp only []
  rw [foldl_dictSet_range_map, foldl_dictSet_range_map]

end Unlinkable

/-! Claim theorems. -/

theorem ediv_eq_of_epoch_range (d t : Int) (h1 : 96 * d ≤ t / 900)
    (h2 : t / 900 < 96 * d + 96) : t / 86400 = d := by
  have e900 := Int.ediv_add_emod t 900
  have r900lo := Int.emod_nonneg t (show (900 : Int) ≠ 0 by norm_num)
  have r900hi := Int.emod_lt_of_pos t (show (0 : Int) < 900 by norm_num)
  have hlo : 86400 * d ≤ t := by omega
  have hhi : t < 86400 * d + 86400 := by omega
  have e86400 := Int.ediv_add_emod t 86400
  have rlo := Int.emod_nonneg t (show (86400 : Int) ≠ 0 by norm_num)
  have rhi := Int.emod_lt_of_pos t (show (0 : Int) < 86400 by norm_num)
  omega

/-- Constant seed oracle used to build concrete unlinkable tracer states. -/
def fresh0 : Unlinkable.SeedFn := fun _ => List.replicate 32 0

/-- C1 counterexample: a freshly initialized unlinkable tracer advanced by one
next_day still serves the EphID of the previous day: time 0 lies on day 0,
the tracer's current day is 1, and get_ephid_for_time(0) succeeds instead of
raising. -/
theorem claim_C1_counterexample :
    (0 : Int) / SECONDS_PER_DAY ≠
      Unlinkable.today (Unlinkable.next_day fresh0 (Unlinkable.init 0 fresh0)) ∧
    (Unlinkable.get_ephid_for_time (Unlinkable.next_day fresh0 (Unlinkable.init 0 fresh0))
        0).isOk = true := by
  constructor
  · decide
  · decide

/-- C1 amended: the low-cost tracer always errors on a time outside the
current day; the unlinkable tracer errors exactly when the epoch of the time
is not in its stored EphID map; in particular a freshly initialized
unlinkable tracer (midnight-aligned start) errors for every time outside the
current day, but after next_day the retained previous days do not error. -/
theorem claim_C1_amended :
    (∀ (s : Lowcost.State) (t : Int),
        Lowcost.day_start_from_time t ≠ s.start_of_today →
        Lowcost.get_ephid_for_time s t = .error .unavailableEphID) ∧
    (∀ (s : Unlinkable.State) (t : Int),
        Unlinkable.get_ephid_for_time s t = .error .unavailableEphID ↔
          dictLookup (Unlinkable.epoch_from_time t) s.ephids_per_epoch = none) ∧
    (∀ (startTime t : Int) (fresh : Unlinkable.SeedFn),
        startTime % SECONDS_PER_DAY = 0 →
        t / SECONDS_PER_DAY ≠ startTime / SECONDS_PER_DAY →
        Unlinkable.get_ephid_for_time (Unlinkable.init startTime fresh) t =
          .error .unavailableEphID) := by
  refine ⟨?_, ?_, ?_⟩
  · intro s t h
    simp [Lowcost.get_ephid_for_time, h]
  · intro s t
    unfold Unlinkable.get_ephid_for_time
    cases hl : dictLookup (Unlinkable.epoch_from_time t) s.ephids_per_epoch <;> simp [hl]
  · intro startTime t fresh hAligned hDay
    obtain ⟨d, hd⟩ : ∃ d, startTime = 86400 * d := by
      refine ⟨startTime / 86400, ?_⟩
      have := Int.ediv_add_emod startTime 86400
      have h8 : startTime % 86400 = 0 := hAligned
      omega
    have hstart_div : startTime / SECONDS_PER_DAY = d := by
      rw [hd]
      show 86400 * d / 86400 = d
      exact Int.mul_ediv_cancel_left d (by norm_num)
    have hfirst : Unlinkable.epoch_from_time startTime = 96 * d := by
      rw [hd]
      show 86400 * d / ((EPOCH_LENGTH : Int) * 60) = 96 * d
      have : (86400 : Int) * d = 900 * (96 * d) := by ring
      rw [this]
      show 900 * (96 * d) / 900 = 96 * d
      exact Int.mul_ediv_cancel_left (96 * d) (by norm_num)
    have hepoch : Unlinkable.epoch_from_time t = t / 900 := by
      show t / ((EPOCH_LENGTH : Int) * 60) = t / 900
      norm_num [EPOCH_LENGTH]
    rw [Unlinkable.init_state_eq]
    unfold Unlinkable.get_ephid_for_time
    have hnone : dictLookup (Unlinkable.epoch_from_time t)
        ((List.range 96).map
          (fun (i : Nat) =>
            (Unlinkable.epoch_from_time startTime + (i : Int),
              Unlinkable.ephid_from_seed (fresh i)))) = none := by
      rw [dictLookup_eq_none_iff]
      intro p hp
      simp only [List.mem_map, List.mem_range] at hp
      obtain ⟨i, hi, rfl⟩ := hp
      simp only [ne_eq]
      intro hc
      apply hDay
      rw [hstart_div]
      rw [hepoch, hfirst] at hc
      have hi' : (i : Int) < 96 := by omega
      exact ediv_eq_of_epoch_range d t (by omega) (by omega)
    simp [hnone]

/-- C1 amended witness: concrete instances of the three parts. -/
theorem claim_C1_amended_witness :
    Lowcost.get_ephid_for_time ⟨[], [], 0, [], []⟩ 86400 = .error .unavailableEphID ∧
    (Unlinkable.get_ephid_for_time ⟨[], [], [], 0⟩ 0 = .error .unavailableEphID ↔
      dictLookup (Unlinkable.epoch_from_time 0)
        (Unlinkable.State.ephids_per_epoch ⟨[], [], [], 0⟩) = none) ∧
    Unlinkable.get_ephid_for_time (Unlinkable.init 0 fresh0) 86400 =
      .error .unavailableEphID :=
  ⟨claim_C1_amended.1 ⟨[], [], 0, [], []⟩ 86400 (by decide),
   claim_C1_amended.2.1 ⟨[], [], [], 0⟩ 0,
   claim_C1_amended.2.2 0 86400 fresh0 (by decide) (by decide)⟩

/-- C2 counterexample: on a freshly initialized unlinkable tracer,
add_observation with a time on the next day raises the out-of-day error yet
mutates the observation store, which gains an empty bucket for the current
day. -/
theorem claim_C2_counterexample :
    (Unlinkable.add_observation (List.replicate 16 0) 86400 (Unlinkable.init 0 fresh0)).1 =
      .error .outOfDayObservation ∧
    (Unlinkable.add_observation (List.replicate 16 0) 86400
        (Unlinkable.init 0 fresh0)).2.observations_per_day ≠
      (Unlinkable.init 0 fresh0).observations_per_day := by
  constructor
  · decide
  · decide

/-- C2 amended: the low-cost operations are atomic on errors (add_observation
and get_tracing_information leave the state exactly as it was), and the
unlinkable get_tracing_information never mutates; but the unlinkable
add_observation, when it errors, leaves the state unchanged except that the
observation map gains an empty bucket for the current day when one was
missing (it is inserted before validation). -/
theorem claim_C2_amended :
    (∀ (sh : ShuffleFn) (e : List Nat) (t : Int) (s : Lowcost.State),
        (Lowcost.add_observation sh e t s).1.isOk = false →
        (Lowcost.add_observation sh e t s).2 = s) ∧
    (∀ (sh : ShuffleFn) (fk : List Nat) (t : Int) (r : Bool) (s : Lowcost.State),
        (Lowcost.get_tracing_information sh fk t r s).1.isOk = false →
        (Lowcost.get_tracing_information sh fk t r s).2 = s) ∧
    (∀ (e : List Nat) (t : Int) (s : Unlinkable.State),
        (Unlinkable.add_observation e t s).1.isOk = false →
        (Unlinkable.add_observation e t s).2 =
          { s with observations_per_day :=
              dictEnsure (Unlinkable.today s) [] s.observations_per_day }) ∧
    (∀ (f l : Int) (s : Unlinkable.State),
        (Unlinkable.get_tracing_information f l s).2 = s) := by
  refine ⟨?_, ?_, ?_, ?_⟩
  · intro sh e t s
    simp only [Lowcost.add_observation]
    split
    · intro _
      rfl
    · intro h
      simp [Except.isOk, Except.toBool] at h
  · intro sh fk t r s
    simp only [Lowcost.get_tracing_information]
    split
    · intro _
      rfl
    · intro h
      simp [Except.isOk, Except.toBool] at h
  · intro e t s
    simp only [Unlinkable.add_observation]
    split
    · intro _
      rfl
    · intro h
      simp [Except.isOk, Except.toBool] at h
  · intro f l s
    simp only [Unlinkable.get_tracing_information]
    split
    · rfl
    · split <;> rfl

/-- C2 amended witness: concrete instances of the four parts. -/
theorem claim_C2_amended_witness :
    (Lowcost.add_observation (fun l => l) [1] 86400 ⟨[], [], 0, [], []⟩).2 =
      ⟨[], [], 0, [], []⟩ ∧
    (Lowcost.get_tracing_information (fun l => l) [1] 86400 true ⟨[], [], 0, [], []⟩).2 =
      ⟨[], [], 0, [], []⟩ ∧
    (Unlinkable.add_observation [1] 86400 ⟨[], [], [], 0⟩).2 =
      ⟨[], [], dictEnsure (Unlinkable.today ⟨[], [], [], 0⟩) [] [], 0⟩ ∧
    (Unlinkable.get_tracing_information 0 86400 ⟨[], [], [], 0⟩).2 = ⟨[], [], [], 0⟩ :=
  ⟨claim_C2_amended.1 (fun l => l) [1] 86400 ⟨[], [], 0, [], []⟩ (by decide),
   claim_C2_amended.2.1 (fun l => l) [1] 86400 true ⟨[], [], 0, [], []⟩ (by decide),
   claim_C2_amended.2.2.1 [1] 86400 ⟨[], [], [], 0⟩ (by decide),
   claim_C2_amended.2.2.2 0 86400 ⟨[], [], [], 0⟩⟩

/-- C9: constructing a low-cost TracingDataBatch with an explicit
release_time succeeds exactly when release_time is a multiple of
SECONDS_PER_BATCH = 7200 and stores the given release time; otherwise it
raises the not-batch-aligned error. -/
theorem claim_C9 (pairs : List (Int × List Nat)) (release_time : Int) :
    (release_time % SECONDS_PER_BATCH = 0 →
      Lowcost.TracingDataBatch.create pairs release_time =
        .ok ⟨release_time, pairs⟩) ∧
    (release_time % SECONDS_PER_BATCH ≠ 0 →
      Lowcost.TracingDataBatch.create pairs release_time = .error .notBatchAligned) := by
  constructor <;> intro h <;> simp [Lowcost.TracingDataBatch.create, h]

/-- C9 witness: the specification's concrete instants. The unaligned time
2020-04-25T15:17:00Z = 1587827820 fails, its floor to the batch length
1587823200 succeeds. -/
theorem claim_C9_witness :
    Lowcost.TracingDataBatch.create [] 1587823200 = .ok ⟨1587823200, []⟩ ∧
    Lowcost.TracingDataBatch.create [] 1587827820 = .error .notBatchAligned :=
  ⟨(claim_C9 [] 1587823200).1 (by decide), (claim_C9 [] 1587827820).2 (by decide)⟩

/-- C4: low-cost get_tracing_information raises exactly when days_back is
negative or exceeds the past-key count; otherwise it returns the day start
of the requested time together with the current key (days_back = 0) or
past_keys[days_back - 1], and when reset_key_after_release is set the state
afterwards has the fresh key, regenerated EphIDs and empty past_keys. -/
theorem claim_C4 (sh : ShuffleFn) (freshKey : List Nat) (t : Int) (reset : Bool)
    (s : Lowcost.State) :
    ((s.start_of_today - Lowcost.day_start_from_time t) / SECONDS_PER_DAY < 0 ∨
       (s.start_of_today - Lowcost.day_start_from_time t) / SECONDS_PER_DAY >
         (s.past_keys.length : Int) →
      Lowcost.get_tracing_information sh freshKey t reset s =
        (.error .unavailableTracingKey, s)) ∧
    (0 ≤ (s.start_of_today - Lowcost.day_start_from_time t) / SECONDS_PER_DAY →
     (s.start_of_today - Lowcost.day_start_from_time t) / SECONDS_PER_DAY ≤
       (s.past_keys.length : Int) →
      Lowcost.get_tracing_information sh freshKey t reset s =
        (.ok (Lowcost.day_start_from_time t,
          if (s.start_of_today - Lowcost.day_start_from_time t) / SECONDS_PER_DAY = 0 then
            s.current_day_key
          else s.past_keys.getD
            ((s.start_of_today - Lowcost.day_start_from_time t) / SECONDS_PER_DAY - 1).toNat []),
         if reset then
           { s with
             current_day_key := freshKey
             current_ephids := Lowcost.generate_ephids_for_day sh freshKey true
             past_keys := [] }
         else s)) := by
  unfold Lowcost.get_tracing_information
  constructor
  · intro h
    rw [if_pos]
    omega
  · intro h1 h2
    rw [if_neg]
    omega

/-- C4 witness: a state one day ahead of the requested time with one past
key, without key reset; and the error case at a future time. -/
theorem claim_C4_witness :
    (Lowcost.get_tracing_information (fun l => l) [7] 0 false
        ⟨[[1]], [], 86400, [2], []⟩ =
      (.ok (0, [1]), ⟨[[1]], [], 86400, [2], []⟩)) ∧
    (Lowcost.get_tracing_information (fun l => l) [7] 172800 false
        ⟨[[1]], [], 86400, [2], []⟩ =
      (.error .unavailableTracingKey, ⟨[[1]], [], 86400, [2], []⟩)) := by
  constructor
  · have h := (claim_C4 (fun l => l) [7] 0 false ⟨[[1]], [], 86400, [2], []⟩).2
      (by decide) (by decide)
    rw [h]
    rfl
  · exact (claim_C4 (fun l => l) [7] 172800 false ⟨[[1]], [], 86400, [2], []⟩).1 (by decide)

/-- C7: low-cost test-vector determinism. Hashing the all-zero 32-byte key
gives the spec's KEY1 literal, hashing KEY1 gives the KEY2 literal, and the
unshuffled EphID list of KEY1 has the three spec literals at indices 0, 1
and 2. -/
theorem claim_C7 :
    Lowcost.next_day_key key0Bytes = key1Bytes ∧
    Lowcost.next_day_key key1Bytes = key2Bytes ∧
    ∀ sh : ShuffleFn,
      (Lowcost.generate_ephids_for_day sh key1Bytes false).getD 0 [] = ephid1_0 ∧
      (Lowcost.generate_ephids_for_day sh key1Bytes false).getD 1 [] = ephid1_1 ∧
      (Lowcost.generate_ephids_for_day sh key1Bytes false).getD 2 [] = ephid1_2 := by
  refine ⟨sha256_key0, sha256_key1, fun sh => ?_⟩
  rw [Lowcost.generate_ephids_unshuffled, hmac_key1, keyExpansion_streamKey1]
  refine ⟨?_, ?_, ?_⟩
  · rw [getD_map_range _ _ 96 0 (by norm_num)]
    exact aesBlock1_0
  · rw [getD_map_range _ _ 96 1 (by norm_num)]
    exact aesBlock1_1
  · rw [getD_map_range _ _ 96 2 (by norm_num)]
    exact aesBlock1_2

theorem length_sha256 (msg : List Nat) : (sha256 msg).length = 32 := by
  simp [sha256, length_toBytesBE]

theorem lengthEphid_eq : LENGTH_EPHID = 16 := by decide

theorem length_ephid_from_seed (seed : List Nat) :
    (Unlinkable.ephid_from_seed seed).length = 16 := by
  simp [Unlinkable.ephid_from_seed, length_sha256, lengthEphid_eq]

theorem length_generate_ephids_unshuffled (sh : ShuffleFn) (key : List Nat) :
    (Lowcost.generate_ephids_for_day sh key false).length = 96 := by
  rw [Lowcost.generate_ephids_unshuffled]
  simp

theorem mem_generate_ephids_unshuffled (sh : ShuffleFn) (key : List Nat) (e : List Nat)
    (he : e ∈ Lowcost.generate_ephids_for_day sh key false) : e.length = 16 := by
  rw [Lowcost.generate_ephids_unshuffled] at he
  simp only [List.mem_map, List.mem_range] at he
  obtain ⟨i, _, rfl⟩ := he
  exact length_aesEncryptBlock _ _

/-- C8: the low-cost EphID generator always returns exactly 96 EphIDs of 16
bytes for either shuffle setting (given a shuffle oracle that permutes); a
freshly initialized unlinkable tracer stores exactly 96 EphIDs of 16 bytes;
and each new unlinkable day stores a 16-byte EphID under each of the 96
epochs of the day. -/
theorem claim_C8 :
    (∀ (sh : ShuffleFn) (key : List Nat) (b : Bool), (∀ l, List.Perm (sh l) l) →
      (Lowcost.generate_ephids_for_day sh key b).length = NUM_EPOCHS_PER_DAY ∧
      ∀ e ∈ Lowcost.generate_ephids_for_day sh key b, e.length = LENGTH_EPHID) ∧
    (∀ (startTime : Int) (fresh : Unlinkable.SeedFn),
      (Unlinkable.init startTime fresh).ephids_per_epoch.length = NUM_EPOCHS_PER_DAY ∧
      ∀ p ∈ (Unlinkable.init startTime fresh).ephids_per_epoch,
        p.2.length = LENGTH_EPHID) ∧
    (∀ (s : Unlinkable.State) (fresh : Unlinkable.SeedFn) (i : Nat),
      i < NUM_EPOCHS_PER_DAY →
      dictLookup (Unlinkable.epoch_from_time s.start_of_today + (i : Int))
          (Unlinkable.create_new_day_ephids fresh s).ephids_per_epoch =
        some (Unlinkable.ephid_from_seed (fresh i))) := by
  refine ⟨?_, ?_, ?_⟩
  · intro sh key b hsh
    rw [numEpochs_eq, lengthEphid_eq]
    cases b
    · exact ⟨length_generate_ephids_unshuffled sh key,
        fun e he => mem_generate_ephids_unshuffled sh key e he⟩
    · rw [Lowcost.generate_ephids_shuffled]
      constructor
      · rw [(hsh _).length_eq]
        exact length_generate_ephids_unshuffled sh key
      · intro e he
        exact mem_generate_ephids_unshuffled sh key e ((hsh _).mem_iff.mp he)
  · intro startTime fresh
    rw [numEpochs_eq, lengthEphid_eq, Unlinkable.init_state_eq]
    constructor
    · simp
    · intro p hp
      simp only [List.mem_map, List.mem_range] at hp
      obtain ⟨i, _, rfl⟩ := hp
      exact length_ephid_from_seed (fresh i)
  · intro s fresh i hi
    rw [numEpochs_eq] at hi
    rw [Unlinkable.create_ephids_field]
    exact foldl_dictSet_lookup (Unlinkable.epoch_from_time s.start_of_today)
      (fun j => Unlinkable.ephid_from_seed (fresh j)) 96 s.ephids_per_epoch i hi

/-- C8 witness: concrete instances of the three parts. -/
theorem claim_C8_witness :
    ((Lowcost.generate_ephids_for_day (fun l => l) key1Bytes false).length =
        NUM_EPOCHS_PER_DAY ∧
      ∀ e ∈ Lowcost.generate_ephids_for_day (fun l => l) key1Bytes false,
        e.length = LENGTH_EPHID) ∧
    ((Unlinkable.init 0 fresh0).ephids_per_epoch.length = NUM_EPOCHS_PER_DAY ∧
      ∀ p ∈ (Unlinkable.init 0 fresh0).ephids_per_epoch, p.2.length = LENGTH_EPHID) ∧
    dictLookup (Unlinkable.epoch_from_time
        (Unlinkable.State.start_of_today ⟨[], [], [], 0⟩) + ((0 : Nat) : Int))
        (Unlinkable.create_new_day_ephids fresh0 ⟨[], [], [], 0⟩).ephids_per_epoch =
      some (Unlinkable.ephid_from_seed (fresh0 0)) :=
  ⟨claim_C8.1 (fun l => l) key1Bytes false (fun l => List.Perm.refl l),
   claim_C8.2.1 0 fresh0,
   claim_C8.2.2 ⟨[], [], [], 0⟩ fresh0 0 (by decide)⟩

namespace Lowcost

/-- State-mutating operations of the low-cost tracer, with their oracle
inputs; get_ephid_for_time and the matching functions read the state without
returning a modified one. -/
inductive Op where
  | nextDayOp (sh : ShuffleFn)
  | addObservationOp (sh : ShuffleFn) (ephid : List Nat) (t : Int)
  | getTracingInformationOp (sh : ShuffleFn) (freshKey : List Nat) (t : Int) (reset : Bool)
  | housekeepingOp (sh : ShuffleFn) (batch : TracingDataBatch)

/-- The state after running an operation (the Python object state after the
call, also when the call raised). -/
def applyOp (s : State) : Op → State
  | .nextDayOp sh => next_day sh s
  | .addObservationOp sh e t => (add_observation sh e t s).2
  | .getTracingInformationOp sh fk t r => (get_tracing_information sh fk t r s).2
  | .housekeepingOp sh b => housekeeping_after_batch sh b s

/-- The downward SHA-256 chain property of the key history: the first
argument is the hash of the head of the list, and every list entry is the
hash of its successor. -/
def isHashChain : List Nat → List (List Nat) → Bool
  | _, [] => true
  | k, k0 :: rest => (decide (k = next_day_key k0)) && isHashChain k0 rest

theorem isHashChain_take (k : List Nat) :
    ∀ (l : List (List Nat)) (n : Nat), isHashChain k l = true →
      isHashChain k (l.take n) = true := by
  intro l
  induction l generalizing k with
  | nil => intro n _; simp [List.take_nil, isHashChain]
  | cons k0 rest ih =>
    intro n h
    cases n with
    | zero => rfl
    | succ n =>
      rw [List.take_succ_cons]
      simp only [isHashChain, Bool.and_eq_true] at h ⊢
      exact ⟨h.1, ih k0 n h.2⟩

theorem isHashChain_applyOp (s : State) (o : Op)
    (h : isHashChain s.current_day_key s.past_keys = true) :
    isHashChain (applyOp s o).current_day_key (applyOp s o).past_keys = true := by
  cases o with
  | nextDayOp sh =>
    show isHashChain (next_day sh s).current_day_key (next_day sh s).past_keys = true
    simp only [next_day]
    have h21 : RETENTION_PERIOD = 20 + 1 := by decide
    rw [h21, List.take_succ_cons]
    simp only [isHashChain, Bool.and_eq_true, decide_eq_true_eq]
    exact ⟨by trivial, isHashChain_take _ _ _ h⟩
  | addObservationOp sh e t =>
    show isHashChain (add_observation sh e t s).2.current_day_key
      (add_observation sh e t s).2.past_keys = true
    simp only [add_observation]
    split
    · exact h
    · exact h
  | getTracingInformationOp sh fk t r =>
    show isHashChain (get_tracing_information sh fk t r s).2.current_day_key
      (get_tracing_information sh fk t r s).2.past_keys = true
    simp only [get_tracing_information]
    split
    · exact h
    · cases r
      · exact h
      · rfl
  | housekeepingOp sh b =>
    exact h

end Lowcost

namespace Lowcost

/-- Contribution of one observation bucket to matches_with_key. -/
def matchContrib (sh : ShuffleFn) (key : List Nat) (start_time release_time : Int)
    (p : Int × List (List Nat)) : Nat :=
  if release_time ≤ p.1 then 0
  else
    match dictLookup ((p.1 / SECONDS_PER_DAY) * SECONDS_PER_DAY)
        (reconstruct_ephids sh key start_time release_time) with
    | none => 0
    | some ephids => ephids.countP (fun e => decide (e ∈ p.2))

theorem foldl_add_eq_sum {α : Type} (f : α → Nat) :
    ∀ (l : List α) (acc : Nat), l.foldl (fun a x => a + f x) acc = acc + (l.map f).sum := by
  intro l
  induction l with
  | nil => intro acc; simp
  | cons x l ih =>
    intro acc
    rw [List.foldl_cons, ih, List.map_cons, List.sum_cons]
    omega

theorem matches_eq_sum (sh : ShuffleFn) (key : List Nat) (start_time release_time : Int)
    (s : State) :
    matches_with_key sh key start_time release_time s =
      (s.observations.map (matchContrib sh key start_time release_time)).sum := by
  simp only [matches_with_key]
  have hstep : ∀ (acc : Nat) (p : Int × List (List Nat)),
      (if release_time ≤ p.1 then acc
       else
        match dictLookup ((p.1 / SECONDS_PER_DAY) * SECONDS_PER_DAY)
            (reconstruct_ephids sh key start_time release_time) with
        | none => acc
        | some ephids => acc + ephids.countP (fun e => decide (e ∈ p.2))) =
      acc + matchContrib sh key start_time release_time p := by
    intro acc p
    unfold matchContrib
    by_cases h : release_time ≤ p.1
    · simp [h]
    · rw [if_neg h, if_neg h]
      cases dictLookup ((p.1 / SECONDS_PER_DAY) * SECONDS_PER_DAY)
        (reconstruct_ephids sh key start_time release_time) <;> simp
  rw [List.foldl_ext _ _ 0 (fun acc p _ => hstep acc p)]
  rw [foldl_add_eq_sum (matchContrib sh key start_time release_time) s.observations 0]
  omega

theorem map_sum_filter_zero {α : Type} (f : α → Nat) (q : α → Bool)
    (hzero : ∀ p, q p = false → f p = 0) :
    ∀ l : List α, (l.map f).sum = ((l.filter q).map f).sum := by
  intro l
  induction l with
  | nil => rfl
  | cons x l ih =>
    rw [List.map_cons, List.sum_cons, List.filter_cons]
    cases hq : q x
    · rw [if_neg (by simp [hq])]
      rw [hzero x hq, ih]
      simp
    · rw [if_pos (by simp [hq])]
      rw [List.map_cons, List.sum_cons, ih]

end Lowcost

/-- C3: observation buckets at or after the release time never contribute to
the low-cost matches_with_key count: two states whose observation buckets
before the release time agree (as a multiset of buckets) yield the same
count, however the buckets at or after the release time differ. -/
theorem claim_C3 (sh : ShuffleFn) (key : List Nat) (start_time release_time : Int)
    (s1 s2 : Lowcost.State)
    (hperm : (s1.observations.filter (fun p => decide (p.1 < release_time))).Perm
      (s2.observations.filter (fun p => decide (p.1 < release_time)))) :
    Lowcost.matches_with_key sh key start_time release_time s1 =
      Lowcost.matches_with_key sh key start_time release_time s2 := by
  rw [Lowcost.matches_eq_sum, Lowcost.matches_eq_sum]
  have hzero : ∀ p : Int × List (List Nat),
      decide (p.1 < release_time) = false →
      Lowcost.matchContrib sh key start_time release_time p = 0 := by
    intro p hp
    unfold Lowcost.matchContrib
    rw [if_pos]
    simp only [decide_eq_false_iff_not, not_lt] at hp
    exact hp
  rw [Lowcost.map_sum_filter_zero _ _ hzero s1.observations,
    Lowcost.map_sum_filter_zero _ _ hzero s2.observations]
  exact List.Perm.sum_eq (hperm.map _)

/-- C3 witness: two concrete states that agree below the release time 7200
and differ at bucket 7200. -/
theorem claim_C3_witness :
    Lowcost.matches_with_key (fun l => l) [] 0 7200 ⟨[], [(0, [[1]])], 0, [], []⟩ =
      Lowcost.matches_with_key (fun l => l) [] 0 7200
        ⟨[], [(0, [[1]]), (7200, [[2]])], 0, [], []⟩ :=
  claim_C3 (fun l => l) [] 0 7200 ⟨[], [(0, [[1]])], 0, [], []⟩
    ⟨[], [(0, [[1]]), (7200, [[2]])], 0, [], []⟩ (by decide)

theorem dictUpd_key_sources {β : Type} (k : Int) (f : β → β) (dflt : β)
    (d : List (Int × β)) :
    ∀ p ∈ dictUpd k f dflt d, p.1 = k ∨ ∃ q ∈ d, p.1 = q.1 := by
  intro p hp
  unfold dictUpd at hp
  by_cases hm : dictMem k d
  · rw [if_pos hm] at hp
    obtain ⟨q, hq, hpq⟩ := List.mem_map.mp hp
    right
    refine ⟨q, hq, ?_⟩
    by_cases hqk : q.1 == k
    · rw [if_pos hqk] at hpq
      rw [← hpq]
    · rw [if_neg hqk] at hpq
      rw [← hpq]
  · rw [if_neg hm] at hp
    rcases List.mem_append.mp hp with h | h
    · right
      exact ⟨p, h, rfl⟩
    · left
      rw [List.mem_singleton.mp h]

theorem filter_ge_map_replace {β : Type} (r k : Int) (hk : k < r) (f : β → β) :
    ∀ d : List (Int × β),
      ((d.map (fun p => if p.1 == k then (p.1, f p.2) else p)).filter
        (fun p => decide (r ≤ p.1))) = d.filter (fun p => decide (r ≤ p.1)) := by
  have hkey : ∀ p : Int × β, (if (p.1 == k) = true then (p.1, f p.2) else p).1 = p.1 := by
    intro p
    split <;> rfl
  intro d
  induction d with
  | nil => rfl
  | cons q d ih =>
    simp only [List.map_cons, List.filter_cons, hkey]
    cases hq : decide (r ≤ q.1)
    · simp only [Bool.false_eq_true, if_false]
      exact ih
    · simp only [if_true]
      have hqk : ¬ (q.1 = k) := by
        simp only [decide_eq_true_eq] at hq
        omega
      rw [if_neg (by simp [hqk]), ih]

theorem filter_ge_dictUpd {β : Type} (r k : Int) (hk : k < r) (f : β → β) (dflt : β)
    (d : List (Int × β)) :
    (dictUpd k f dflt d).filter (fun p => decide (r ≤ p.1)) =
      d.filter (fun p => decide (r ≤ p.1)) := by
  unfold dictUpd
  by_cases hm : dictMem k d
  · rw [if_pos hm]
    exact filter_ge_map_replace r k hk f d
  · rw [if_neg hm, List.filter_append]
    have : decide (r ≤ k) = false := by
      simp only [decide_eq_false_iff_not, not_le]
      omega
    simp [this]

theorem map_replace_of_not_mem {β : Type} (k : Int) (f : β → β) (d : List (Int × β))
    (h : ∀ p ∈ d, p.1 ≠ k) :
    d.map (fun p => if p.1 == k then (p.1, f p.2) else p) = d := by
  induction d with
  | nil => rfl
  | cons q d ih =>
    rw [List.map_cons, if_neg (by simp [h q (by simp)])]
    rw [ih (fun p hp => h p (by simp [hp]))]

theorem dictUpd_keys_eq_of_mem {β : Type} (k : Int) (f : β → β) (dflt : β)
    (d : List (Int × β)) (hm : dictMem k d = true) :
    (dictUpd k f dflt d).map (fun p => p.1) = d.map (fun p => p.1) := by
  unfold dictUpd
  rw [if_pos hm, List.map_map]
  apply List.map_congr_left
  intro p _
  show (if (p.1 == k) = true then (p.1, f p.2) else p).1 = p.1
  split <;> rfl

theorem dictUpd_keys_nodup {β : Type} (k : Int) (f : β → β) (dflt : β)
    (d : List (Int × β)) (h : (d.map (fun p => p.1)).Nodup) :
    ((dictUpd k f dflt d).map (fun p => p.1)).Nodup := by
  by_cases hm : dictMem k d
  · rw [dictUpd_keys_eq_of_mem k f dflt d hm]
    exact h
  · unfold dictUpd
    rw [if_neg hm, List.map_append]
    simp only [List.map_cons, List.map_nil]
    rw [List.nodup_append]
    refine ⟨h, by simp, ?_⟩
    intro x hx hmem
    simp only [List.mem_singleton] at hmem
    subst hmem
    obtain ⟨q, hq, hqx⟩ := List.mem_map.mp hx
    have hm' : dictMem x d = false := by
      cases hdm : dictMem x d
      · rfl
      · exact absurd hdm hm
    exact (dictMem_eq_false_iff x d).mp hm' q hq hqx

namespace Lowcost

/-- Concatenation of all observation bags of the map. -/
def bagsFlatten (d : List (Int × List (List Nat))) : List (List Nat) :=
  (d.map (fun p => p.2)).flatten

theorem bagsFlatten_append (a b : List (Int × List (List Nat))) :
    bagsFlatten (a ++ b) = bagsFlatten a ++ bagsFlatten b := by
  simp [bagsFlatten]

theorem bagsFlatten_cons (p : Int × List (List Nat)) (d : List (Int × List (List Nat))) :
    bagsFlatten (p :: d) = p.2 ++ bagsFlatten d := by
  simp [bagsFlatten]

theorem bagsFlatten_map_replace_perm (sh : ShuffleFn)
    (hsh : ∀ l, List.Perm (sh l) l) (k : Int) (vs : List (List Nat)) :
    ∀ d : List (Int × List (List Nat)),
      (d.map (fun p => p.1)).Nodup → dictMem k d = true →
      List.Perm
        (bagsFlatten (d.map (fun p =>
          if p.1 == k then (p.1, (fun bag => sh (bag ++ vs)) p.2) else p)))
        (bagsFlatten d ++ vs) := by
  intro d
  induction d with
  | nil => intro _ hm; simp [dictMem] at hm
  | cons q d ih =>
    intro hnodup hm
    rw [List.map_cons]
    by_cases hqk : q.1 = k
    · have hno : ∀ p ∈ d, p.1 ≠ k := by
        intro p hp hpk
        rw [List.map_cons, List.nodup_cons] at hnodup
        apply hnodup.1
        rw [hqk, ← hpk]
        exact List.mem_map.mpr ⟨p, hp, rfl⟩
      have hrest := map_replace_of_not_mem k (fun bag => sh (bag ++ vs)) d hno
      have hhead : (if (q.1 == k) = true then (q.1, (fun bag => sh (bag ++ vs)) q.2) else q) =
          (q.1, sh (q.2 ++ vs)) := if_pos (by simp [hqk])
      rw [hhead, hrest, bagsFlatten_cons, bagsFlatten_cons, List.append_assoc]
      refine ((hsh (q.2 ++ vs)).append_right (bagsFlatten d)).trans ?_
      rw [List.append_assoc]
      exact (List.perm_append_comm).append_left q.2
    · have hhead : (if (q.1 == k) = true then (q.1, (fun bag => sh (bag ++ vs)) q.2) else q) =
          q := if_neg (by simp [hqk])
      rw [hhead]
      have hm' : dictMem k d = true := by
        simp only [dictMem, List.any_cons] at hm
        rcases Bool.or_eq_true_iff.mp hm with h | h
        · exact absurd (by simpa using h) hqk
        · exact h
      have hnodup' : (d.map (fun p => p.1)).Nodup := by
        rw [List.map_cons, List.nodup_cons] at hnodup
        exact hnodup.2
      rw [bagsFlatten_cons, bagsFlatten_cons, List.append_assoc]
      exact (ih hnodup' hm').append_left q.2

theorem bagsFlatten_dictUpd_perm (sh : ShuffleFn) (hsh : ∀ l, List.Perm (sh l) l)
    (k : Int) (vs : List (List Nat)) (d : List (Int × List (List Nat)))
    (hnodup : (d.map (fun p => p.1)).Nodup) :
    List.Perm (bagsFlatten (dictUpd k (fun bag => sh (bag ++ vs)) [] d))
      (bagsFlatten d ++ vs) := by
  unfold dictUpd
  by_cases hm : dictMem k d
  · rw [if_pos hm]
    exact bagsFlatten_map_replace_perm sh hsh k vs d hnodup hm
  · rw [if_neg hm, bagsFlatten_append]
    show List.Perm (bagsFlatten d ++ (sh ([] ++ vs) ++ [])) (bagsFlatten d ++ vs)
    apply List.Perm.append_left
    rw [List.append_nil, List.nil_append]
    exact hsh vs

/-- Fold applying a list of add_observation calls to a tracer state. -/
def applyAdds (sh : ShuffleFn) (calls : List (List Nat × Int)) (s : State) : State :=
  calls.foldl (fun st c => (add_observation sh c.1 c.2 st).2) s

theorem add_observation_keys (sh : ShuffleFn) (e : List Nat) (t : Int) (s : State)
    (h : ∀ p ∈ s.observations, p.1 % SECONDS_PER_BATCH = 0) :
    ∀ p ∈ (add_observation sh e t s).2.observations, p.1 % SECONDS_PER_BATCH = 0 := by
  simp only [add_observation]
  split
  · exact h
  · intro p hp
    simp only at hp
    rcases dictUpd_key_sources _ _ _ _ p hp with hk | ⟨q, hq, hpq⟩
    · rw [hk]
      show (t / SECONDS_PER_BATCH) * SECONDS_PER_BATCH % SECONDS_PER_BATCH = 0
      exact Int.mul_emod_left _ _
    · rw [hpq]
      exact h q hq

end Lowcost

/-- C5: observation-key granularity. From a fresh low-cost tracer, after any
sequence of add_observation calls every key of the observation map is a
multiple of SECONDS_PER_BATCH = 7200; and housekeeping_after_batch makes
every key below the batch release time a multiple of SECONDS_PER_DAY = 86400
while leaving buckets at or after the release time unchanged and preserving
the multiset of stored EphIDs. -/
theorem claim_C5 :
    (∀ (sh : ShuffleFn) (startTime : Int) (freshKey : List Nat)
        (calls : List (List Nat × Int)),
      ∀ p ∈ (Lowcost.applyAdds sh calls (Lowcost.init startTime freshKey sh)).observations,
        p.1 % SECONDS_PER_BATCH = 0) ∧
    (∀ (sh : ShuffleFn) (batch : Lowcost.TracingDataBatch) (s : Lowcost.State),
      (∀ p ∈ (Lowcost.housekeeping_after_batch sh batch s).observations,
        p.1 < batch.release_time → p.1 % SECONDS_PER_DAY = 0) ∧
      ((Lowcost.housekeeping_after_batch sh batch s).observations.filter
          (fun p => decide (batch.release_time ≤ p.1)) =
        s.observations.filter (fun p => decide (batch.release_time ≤ p.1))) ∧
      ((∀ l, List.Perm (sh l) l) → ((s.observations.map (fun p => p.1)).Nodup →
        List.Perm
          (Lowcost.bagsFlatten (Lowcost.housekeeping_after_batch sh batch s).observations)
          (Lowcost.bagsFlatten s.observations)))) := by
  constructor
  · intro sh startTime freshKey calls
    suffices h : ∀ (calls : List (List Nat × Int)) (s : Lowcost.State),
        (∀ p ∈ s.observations, p.1 % SECONDS_PER_BATCH = 0) →
        ∀ p ∈ (Lowcost.applyAdds sh calls s).observations, p.1 % SECONDS_PER_BATCH = 0 by
      apply h
      intro p hp
      simp [Lowcost.init] at hp
    intro calls
    induction calls with
    | nil => intro s h; exact h
    | cons c calls ih =>
      intro s h
      exact ih _ (Lowcost.add_observation_keys sh c.1 c.2 s h)
  · intro sh batch s
    simp only [Lowcost.housekeeping_after_batch]
    constructor
    · -- day granularity below the release time
      suffices h : ∀ (upd : List (Int × List (List Nat)))
          (acc : List (Int × List (List Nat))),
          (∀ p ∈ acc, p.1 < batch.release_time → p.1 % SECONDS_PER_DAY = 0) →
          ∀ p ∈ upd.foldl (fun obs p =>
              dictUpd ((p.1 / SECONDS_PER_DAY) * SECONDS_PER_DAY)
                (fun bag => sh (bag ++ p.2)) [] obs) acc,
            p.1 < batch.release_time → p.1 % SECONDS_PER_DAY = 0 by
        apply h
        intro p hp
        have := (List.mem_filter.mp hp).2
        simp only [Bool.not_eq_eq_eq_not, Bool.not_true, decide_eq_false_iff_not] at this
        intro hlt
        by_cases hmod : p.1 % SECONDS_PER_DAY = 0
        · exact hmod
        · exact absurd ⟨hlt, hmod⟩ this
      intro upd
      induction upd with
      | nil => intro acc h; exact h
      | cons u upd ih =>
        intro acc h
        apply ih
        intro p hp
        rcases dictUpd_key_sources _ _ _ _ p hp with hk | ⟨q, hq, hpq⟩
        · intro _
          rw [hk]
          exact Int.mul_emod_left _ _
        · rw [hpq]
          exact h q hq
    constructor
    · -- buckets at or after the release time unchanged
      have hupdlt : ∀ p ∈ s.observations.filter
          (fun p => decide (p.1 < batch.release_time ∧ p.1 % SECONDS_PER_DAY ≠ 0)),
          (p.1 / SECONDS_PER_DAY) * SECONDS_PER_DAY < batch.release_time := by
        intro p hp
        have := (List.mem_filter.mp hp).2
        simp only [decide_eq_true_eq] at this
        have hle : (p.1 / SECONDS_PER_DAY) * SECONDS_PER_DAY ≤ p.1 :=
          Int.ediv_mul_le p.1 (by decide)
        omega
      suffices h : ∀ (upd : List (Int × List (List Nat)))
          (acc : List (Int × List (List Nat))),
          (∀ p ∈ upd, (p.1 / SECONDS_PER_DAY) * SECONDS_PER_DAY < batch.release_time) →
          (upd.foldl (fun obs p =>
              dictUpd ((p.1 / SECONDS_PER_DAY) * SECONDS_PER_DAY)
                (fun bag => sh (bag ++ p.2)) [] obs) acc).filter
              (fun p => decide (batch.release_time ≤ p.1)) =
            acc.filter (fun p => decide (batch.release_time ≤ p.1)) by
        rw [h _ _ hupdlt]
        rw [List.filter_filter]
        apply List.filter_congr
        intro p _
        by_cases hge : batch.release_time ≤ p.1
        · have hlt : ¬ (p.1 < batch.release_time ∧ p.1 % SECONDS_PER_DAY ≠ 0) := by omega
          simp [hge, hlt]
        · simp [hge]
      intro upd
      induction upd with
      | nil => intro acc _; rfl
      | cons u upd ih =>
        intro acc hlt
        rw [List.foldl_cons, ih _ (fun p hp => hlt p (by simp [hp]))]
        exact filter_ge_dictUpd batch.release_time _ (hlt u (by simp)) _ _ acc
    · -- multiset of EphIDs preserved
      intro hsh hnodup
      have hperm0 : List.Perm
          (s.observations.filter (fun p => decide (p.1 < batch.release_time ∧
            p.1 % SECONDS_PER_DAY ≠ 0)) ++
           s.observations.filter (fun p => !decide (p.1 < batch.release_time ∧
            p.1 % SECONDS_PER_DAY ≠ 0)))
          s.observations := List.filter_append_perm _ _
      suffices h : ∀ (upd : List (Int × List (List Nat)))
          (acc : List (Int × List (List Nat))),
          ((acc.map (fun p => p.1)).Nodup) →
          List.Perm
            (Lowcost.bagsFlatten (upd.foldl (fun obs p =>
              dictUpd ((p.1 / SECONDS_PER_DAY) * SECONDS_PER_DAY)
                (fun bag => sh (bag ++ p.2)) [] obs) acc))
            (Lowcost.bagsFlatten acc ++ Lowcost.bagsFlatten upd) by
        have hkept : ((s.observations.filter (fun p => !decide (p.1 < batch.release_time ∧
            p.1 % SECONDS_PER_DAY ≠ 0))).map (fun p => p.1)).Nodup := by
          apply List.Nodup.sublist _ hnodup
          exact ((List.filter_sublist _).map _)
        have hflat2 : List.Perm
            (Lowcost.bagsFlatten (s.observations.filter
              (fun p => decide (p.1 < batch.release_time ∧ p.1 % SECONDS_PER_DAY ≠ 0))) ++
             Lowcost.bagsFlatten (s.observations.filter
              (fun p => !decide (p.1 < batch.release_time ∧ p.1 % SECONDS_PER_DAY ≠ 0))))
            (Lowcost.bagsFlatten s.observations) := by
          rw [← Lowcost.bagsFlatten_append]
          exact (hperm0.map (fun p => p.2)).flatten
        exact (h _ _ hkept).trans (List.perm_append_comm.trans hflat2)
      intro upd
      induction upd with
      | nil =>
        intro acc _
        simp [Lowcost.bagsFlatten]
      | cons u upd ih =>
        intro acc hacc
        rw [List.foldl_cons, Lowcost.bagsFlatten_cons]
        have hstep := Lowcost.bagsFlatten_dictUpd_perm sh hsh
          ((u.1 / SECONDS_PER_DAY) * SECONDS_PER_DAY) u.2 acc hacc
        have hacc' : (((dictUpd ((u.1 / SECONDS_PER_DAY) * SECONDS_PER_DAY)
            (fun bag => sh (bag ++ u.2)) [] acc)).map (fun p => p.1)).Nodup :=
          dictUpd_keys_nodup _ _ _ _ hacc
        refine (ih _ hacc').trans ?_
        refine (hstep.append_right (Lowcost.bagsFlatten upd)).trans ?_
        rw [List.append_assoc]

namespace Lowcost

theorem next_day_start (sh : ShuffleFn) (s : State) :
    (next_day sh s).start_of_today = s.start_of_today + SECONDS_PER_DAY := by
  simp only [next_day]

theorem next_day_past_keys_len (sh : ShuffleFn) (s : State) :
    (next_day sh s).past_keys.length ≤ RETENTION_PERIOD := by
  simp only [next_day]
  rw [List.length_take]
  exact Nat.min_le_left _ _

theorem next_day_obs_mem (sh : ShuffleFn) (s : State) (p : Int × List (List Nat))
    (hp : p ∈ (next_day sh s).observations) :
    p ∈ s.observations ∧
      s.start_of_today + SECONDS_PER_DAY - (RETENTION_PERIOD : Int) * SECONDS_PER_DAY ≤ p.1 := by
  simp only [next_day] at hp
  have h := List.mem_filter.mp hp
  refine ⟨h.1, ?_⟩
  have h2 := h.2
  simp only [Bool.not_eq_eq_eq_not, Bool.not_true, decide_eq_false_iff_not, not_lt] at h2
  exact h2

/-- Iterated next_day with per-day shuffle oracles. -/
def iterNextDay (shFam : Nat → ShuffleFn) (n : Nat) (s : State) : State :=
  (List.range n).foldl (fun st i => next_day (shFam i) st) s

theorem iterNextDay_succ (shFam : Nat → ShuffleFn) (n : Nat) (s : State) :
    iterNextDay shFam (n + 1) s = next_day (shFam n) (iterNextDay shFam n s) := by
  unfold iterNextDay
  rw [List.range_succ, List.foldl_append, List.foldl_cons, List.foldl_nil]

theorem iterNextDay_start (shFam : Nat → ShuffleFn) :
    ∀ (n : Nat) (s : State),
      (iterNextDay shFam n s).start_of_today =
        s.start_of_today + (n : Int) * SECONDS_PER_DAY := by
  intro n
  induction n with
  | zero =>
    intro s
    show s.start_of_today = s.start_of_today + 0 * SECONDS_PER_DAY
    ring
  | succ n ih =>
    intro s
    rw [iterNextDay_succ, next_day_start, ih]
    push_cast
    ring

theorem iterNextDay_obs_sub (shFam : Nat → ShuffleFn) :
    ∀ (n : Nat) (s : State) (p : Int × List (List Nat)),
      p ∈ (iterNextDay shFam n s).observations → p ∈ s.observations := by
  intro n
  induction n with
  | zero => intro s p hp; exact hp
  | succ n ih =>
    intro s p hp
    rw [iterNextDay_succ] at hp
    exact ih s p (next_day_obs_mem _ _ p hp).1

end Lowcost

theorem dictMem_by_keys {β : Type} (k : Int) (d : List (Int × β)) :
    dictMem k d = (d.map (fun p => p.1)).any (fun x => x == k) := by
  induction d with
  | nil => rfl
  | cons a l ih =>
    simp only [dictMem, List.map_cons, List.any_cons] at *
    rw [ih]

theorem dictSet_keys_congr {β : Type} (k : Int) (v1 v2 : β) (d1 d2 : List (Int × β))
    (h : d1.map (fun p => p.1) = d2.map (fun p => p.1)) :
    (dictSet k v1 d1).map (fun p => p.1) = (dictSet k v2 d2).map (fun p => p.1) := by
  have hm : dictMem k d1 = dictMem k d2 := by
    rw [dictMem_by_keys, dictMem_by_keys, h]
  unfold dictSet
  cases hmem : dictMem k d1 with
  | true =>
    have hmem2 : dictMem k d2 = true := hm ▸ hmem
    rw [dictUpd_keys_eq_of_mem k _ _ d1 hmem, dictUpd_keys_eq_of_mem k _ _ d2 hmem2]
    exact h
  | false =>
    have hmem2 : dictMem k d2 = false := hm ▸ hmem
    unfold dictUpd
    rw [hmem, hmem2]
    simp only [Bool.false_eq_true, if_false, List.map_append, h]
    rfl

namespace Unlinkable

theorem create_keys_eq (fresh : SeedFn) (s : State)
    (h : s.seeds_per_epoch.map (fun p => p.1) = s.ephids_per_epoch.map (fun p => p.1)) :
    (create_new_day_ephids fresh s).seeds_per_epoch.map (fun p => p.1) =
      (create_new_day_ephids fresh s).ephids_per_epoch.map (fun p => p.1) := by
  rw [create_seeds_field, create_ephids_field]
  suffices hgen : ∀ (l : List Nat) (d1 d2 : List (Int × List Nat)),
      d1.map (fun p => p.1) = d2.map (fun p => p.1) →
      (l.foldl (fun acc (i : Nat) =>
          dictSet (epoch_from_time s.start_of_today + (i : Int)) (fresh i) acc) d1).map
        (fun p => p.1) =
      (l.foldl (fun acc (i : Nat) =>
          dictSet (epoch_from_time s.start_of_today + (i : Int))
            (ephid_from_seed (fresh i)) acc) d2).map (fun p => p.1) from
    hgen (List.range 96) _ _ h
  intro l
  induction l with
  | nil => intro d1 d2 h; exact h
  | cons a l ih =>
    intro d1 d2 h
    rw [List.foldl_cons, List.foldl_cons]
    exact ih _ _ (dictSet_keys_congr _ _ _ _ _ h)

theorem next_day_start_eq (fresh : SeedFn) (s : State) :
    (next_day fresh s).start_of_today = s.start_of_today + SECONDS_PER_DAY := by
  simp only [next_day, create_start_field]

theorem next_day_obs_day_mem (fresh : SeedFn) (s : State) (p : Int × List (List Nat))
    (hp : p ∈ (next_day fresh s).observations_per_day) :
    p ∈ s.observations_per_day ∧
      (s.start_of_today + SECONDS_PER_DAY) / SECONDS_PER_DAY - (RETENTION_PERIOD : Int) ≤ p.1 := by
  simp only [next_day, create_obs_field, create_start_field, today] at hp
  have h := List.mem_filter.mp hp
  refine ⟨h.1, ?_⟩
  have h2 := h.2
  simp only [Bool.not_eq_eq_eq_not, Bool.not_true, decide_eq_false_iff_not, not_lt] at h2
  exact h2

theorem next_day_seeds_mem (fresh : SeedFn) (s : State) (p : Int × List Nat)
    (hp : p ∈ (next_day fresh s).seeds_per_epoch) :
    epoch_from_time ((next_day fresh s).start_of_today -
      (RETENTION_PERIOD : Int) * SECONDS_PER_DAY) ≤ p.1 := by
  rw [next_day_start_eq]
  simp only [next_day, create_start_field] at hp
  have h := List.mem_filter.mp hp
  by_contra hlt
  simp only [not_le] at hlt
  have h2 := h.2
  simp only [Bool.not_eq_eq_eq_not, Bool.not_true] at h2
  apply absurd h2
  simp only [ne_eq, Bool.not_eq_false]
  rw [List.contains_iff_exists_mem_beq]
  refine ⟨p.1, ?_, by simp⟩
  apply List.mem_map.mpr
  refine ⟨p, List.mem_filter.mpr ⟨h.1, ?_⟩, rfl⟩
  simp only [decide_eq_true_eq]
  exact hlt

theorem next_day_ephids_mem (fresh : SeedFn) (s : State) (p : Int × List Nat)
    (hkeys : s.seeds_per_epoch.map (fun p => p.1) = s.ephids_per_epoch.map (fun p => p.1))
    (hp : p ∈ (next_day fresh s).ephids_per_epoch) :
    epoch_from_time ((next_day fresh s).start_of_today -
      (RETENTION_PERIOD : Int) * SECONDS_PER_DAY) ≤ p.1 := by
  rw [next_day_start_eq]
  simp only [next_day, create_start_field] at hp
  have h := List.mem_filter.mp hp
  by_contra hlt
  simp only [not_le] at hlt
  have h2 := h.2
  simp only [Bool.not_eq_eq_eq_not, Bool.not_true] at h2
  apply absurd h2
  simp only [ne_eq, Bool.not_eq_false]
  rw [List.contains_iff_exists_mem_beq]
  refine ⟨p.1, ?_, by simp⟩
  apply List.mem_map.mpr
  have hkeys' := create_keys_eq fresh
    { s with start_of_today := s.start_of_today + SECONDS_PER_DAY } hkeys
  have hpkey : p.1 ∈ ((create_new_day_ephids fresh
      { s with start_of_today := s.start_of_today + SECONDS_PER_DAY }).seeds_per_epoch.map
        (fun p => p.1)) := by
    rw [hkeys']
    exact List.mem_map.mpr ⟨p, h.1, rfl⟩
  obtain ⟨q, hq, hqk⟩ := List.mem_map.mp hpkey
  refine ⟨q, List.mem_filter.mpr ⟨hq, ?_⟩, hqk⟩
  simp only [decide_eq_true_eq]
  rw [hqk]
  exact hlt

/-- Iterated next_day with per-day seed oracles. -/
def iterNextDay (freshFam : Nat → SeedFn) (n : Nat) (s : State) : State :=
  (List.range n).foldl (fun st i => next_day (freshFam i) st) s

theorem iterNextDay_step (freshFam : Nat → SeedFn) (n : Nat) (s : State) :
    iterNextDay freshFam (n + 1) s = next_day (freshFam n) (iterNextDay freshFam n s) := by
  unfold iterNextDay
  rw [List.range_succ, List.foldl_append, List.foldl_cons, List.foldl_nil]

theorem iterNextDay_start_eq (freshFam : Nat → SeedFn) :
    ∀ (n : Nat) (s : State),
      (iterNextDay freshFam n s).start_of_today =
        s.start_of_today + (n : Int) * SECONDS_PER_DAY := by
  intro n
  induction n with
  | zero =>
    intro s
    show s.start_of_today = s.start_of_today + 0 * SECONDS_PER_DAY
    ring
  | succ n ih =>
    intro s
    rw [iterNextDay_step, next_day_start_eq, ih]
    push_cast
    ring

theorem iterNextDay_obs_day_sub (freshFam : Nat → SeedFn) :
    ∀ (n : Nat) (s : State) (p : Int × List (List Nat)),
      p ∈ (iterNextDay freshFam n s).observations_per_day →
        p ∈ s.observations_per_day := by
  intro n
  induction n with
  | zero => intro s p hp; exact hp
  | succ n ih =>
    intro s p hp
    rw [iterNextDay_step] at hp
    exact ih s p (next_day_obs_day_mem _ _ p hp).1

end Unlinkable

/-- C6: retention bound. Each low-cost next_day truncates past_keys to at
most RETENTION_PERIOD = 21 entries and removes every observation older than
the retention window; after RETENTION_PERIOD + 1 calls no observation
recorded before the first call remains. The unlinkable next_day likewise
drops observation days, seeds and EphIDs beyond the retention window, and
after RETENTION_PERIOD + 1 calls the observation store is empty of all
previously recorded days. -/
theorem claim_C6 :
    (∀ (sh : ShuffleFn) (s : Lowcost.State),
      (Lowcost.next_day sh s).past_keys.length ≤ RETENTION_PERIOD) ∧
    (∀ (sh : ShuffleFn) (s : Lowcost.State),
      ∀ p ∈ (Lowcost.next_day sh s).observations,
        (Lowcost.next_day sh s).start_of_today -
          (RETENTION_PERIOD : Int) * SECONDS_PER_DAY ≤ p.1) ∧
    (∀ (shFam : Nat → ShuffleFn) (s : Lowcost.State),
      (∀ p ∈ s.observations, p.1 < s.start_of_today + SECONDS_PER_DAY) →
      (Lowcost.iterNextDay shFam (RETENTION_PERIOD + 1) s).observations = []) ∧
    (∀ (fresh : Unlinkable.SeedFn) (s : Unlinkable.State),
      ∀ p ∈ (Unlinkable.next_day fresh s).observations_per_day,
        Unlinkable.today (Unlinkable.next_day fresh s) - (RETENTION_PERIOD : Int) ≤ p.1) ∧
    (∀ (fresh : Unlinkable.SeedFn) (s : Unlinkable.State),
      ∀ p ∈ (Unlinkable.next_day fresh s).seeds_per_epoch,
        Unlinkable.epoch_from_time ((Unlinkable.next_day fresh s).start_of_today -
          (RETENTION_PERIOD : Int) * SECONDS_PER_DAY) ≤ p.1) ∧
    (∀ (fresh : Unlinkable.SeedFn) (s : Unlinkable.State),
      s.seeds_per_epoch.map (fun p => p.1) = s.ephids_per_epoch.map (fun p => p.1) →
      ∀ p ∈ (Unlinkable.next_day fresh s).ephids_per_epoch,
        Unlinkable.epoch_from_time ((Unlinkable.next_day fresh s).start_of_today -
          (RETENTION_PERIOD : Int) * SECONDS_PER_DAY) ≤ p.1) ∧
    (∀ (freshFam : Nat → Unlinkable.SeedFn) (s : Unlinkable.State),
      (∀ p ∈ s.observations_per_day, p.1 ≤ Unlinkable.today s) →
      (Unlinkable.iterNextDay freshFam (RETENTION_PERIOD + 1) s).observations_per_day = []) := by
  refine ⟨?_, ?_, ?_, ?_, ?_, ?_, ?_⟩
  · intro sh s
    exact Lowcost.next_day_past_keys_len sh s
  · intro sh s p hp
    have h := (Lowcost.next_day_obs_mem sh s p hp).2
    rw [Lowcost.next_day_start]
    exact h
  · intro shFam s h
    have h22 : RETENTION_PERIOD + 1 = 21 + 1 := by decide
    rw [h22]
    cases hobs : (Lowcost.iterNextDay shFam (21 + 1) s).observations with
    | nil => rfl
    | cons p rest =>
      exfalso
      have hp : p ∈ (Lowcost.iterNextDay shFam (21 + 1) s).observations := by
        rw [hobs]
        exact List.mem_cons_self _ _
      rw [Lowcost.iterNextDay_succ] at hp
      have hmem := Lowcost.next_day_obs_mem _ _ p hp
      have hsub := Lowcost.iterNextDay_obs_sub shFam 21 s p hmem.1
      have hlt := h p hsub
      have hbound := hmem.2
      rw [Lowcost.iterNextDay_start shFam 21 s] at hbound
      have hR : (RETENTION_PERIOD : Int) = 21 := by decide
      rw [hR] at hbound
      have h21 : ((21 : Nat) : Int) = 21 := by decide
      rw [h21] at hbound
      omega
  · intro fresh s p hp
    have h := (Unlinkable.next_day_obs_day_mem fresh s p hp).2
    show (Unlinkable.next_day fresh s).start_of_today / SECONDS_PER_DAY -
      (RETENTION_PERIOD : Int) ≤ p.1
    rw [Unlinkable.next_day_start_eq]
    exact h
  · intro fresh s p hp
    exact Unlinkable.next_day_seeds_mem fresh s p hp
  · intro fresh s hkeys p hp
    exact Unlinkable.next_day_ephids_mem fresh s p hkeys hp
  · intro freshFam s h
    have h22 : RETENTION_PERIOD + 1 = 21 + 1 := by decide
    rw [h22]
    cases hobs : (Unlinkable.iterNextDay freshFam (21 + 1) s).observations_per_day with
    | nil => rfl
    | cons p rest =>
      exfalso
      have hp : p ∈ (Unlinkable.iterNextDay freshFam (21 + 1) s).observations_per_day := by
        rw [hobs]
        exact List.mem_cons_self _ _
      rw [Unlinkable.iterNextDay_step] at hp
      have hmem := Unlinkable.next_day_obs_day_mem _ _ p hp
      have hsub := Unlinkable.iterNextDay_obs_day_sub freshFam 21 s p hmem.1
      have hle := h p hsub
      have hbound := hmem.2
      rw [Unlinkable.iterNextDay_start_eq freshFam 21 s] at hbound
      have hR : (RETENTION_PERIOD : Int) = 21 := by decide
      rw [hR] at hbound
      have h21 : ((21 : Nat) : Int) = 21 := by decide
      rw [h21] at hbound
      have hdiv : (s.start_of_today + 21 * SECONDS_PER_DAY + SECONDS_PER_DAY) /
          SECONDS_PER_DAY = s.start_of_today / SECONDS_PER_DAY + 22 := by
        have he : s.start_of_today + 21 * SECONDS_PER_DAY + SECONDS_PER_DAY =
            s.start_of_today + 22 * SECONDS_PER_DAY := by ring
        rw [he]
        exact Int.add_mul_ediv_right s.start_of_today 22 (by decide)
      rw [hdiv] at hbound
      simp only [Unlinkable.today] at hle
      omega

/-- C6 witness: concrete instances of the seven parts. -/
theorem claim_C6_witness :
    ((Lowcost.next_day (fun l => l) ⟨[], [], 0, [], []⟩).past_keys.length ≤
      RETENTION_PERIOD) ∧
    (∀ p ∈ (Lowcost.next_day (fun l => l) ⟨[], [(0, [[1]])], 0, [], []⟩).observations,
      (Lowcost.next_day (fun l => l) ⟨[], [(0, [[1]])], 0, [], []⟩).start_of_today -
        (RETENTION_PERIOD : Int) * SECONDS_PER_DAY ≤ p.1) ∧
    ((Lowcost.iterNextDay (fun _ => (fun l => l)) (RETENTION_PERIOD + 1)
        ⟨[], [(0, [[1]])], 0, [], []⟩).observations = []) ∧
    (∀ p ∈ (Unlinkable.next_day fresh0 ⟨[], [], [(0, [[1]])], 0⟩).observations_per_day,
      Unlinkable.today (Unlinkable.next_day fresh0 ⟨[], [], [(0, [[1]])], 0⟩) -
        (RETENTION_PERIOD : Int) ≤ p.1) ∧
    (∀ p ∈ (Unlinkable.next_day fresh0 ⟨[], [], [], 0⟩).seeds_per_epoch,
      Unlinkable.epoch_from_time
        ((Unlinkable.next_day fresh0 ⟨[], [], [], 0⟩).start_of_today -
          (RETENTION_PERIOD : Int) * SECONDS_PER_DAY) ≤ p.1) ∧
    (∀ p ∈ (Unlinkable.next_day fresh0 ⟨[], [], [], 0⟩).ephids_per_epoch,
      Unlinkable.epoch_from_time
        ((Unlinkable.next_day fresh0 ⟨[], [], [], 0⟩).start_of_today -
          (RETENTION_PERIOD : Int) * SECONDS_PER_DAY) ≤ p.1) ∧
    ((Unlinkable.iterNextDay (fun _ => fresh0) (RETENTION_PERIOD + 1)
        ⟨[], [], [(0, [[1]])], 0⟩).observations_per_day = []) :=
  ⟨claim_C6.1 (fun l => l) ⟨[], [], 0, [], []⟩,
   claim_C6.2.1 (fun l => l) ⟨[], [(0, [[1]])], 0, [], []⟩,
   claim_C6.2.2.1 (fun _ => (fun l => l)) ⟨[], [(0, [[1]])], 0, [], []⟩ (by decide),
   claim_C6.2.2.2.1 fresh0 ⟨[], [], [(0, [[1]])], 0⟩,
   claim_C6.2.2.2.2.1 fresh0 ⟨[], [], [], 0⟩,
   claim_C6.2.2.2.2.2.1 fresh0 ⟨[], [], [], 0⟩ rfl,
   claim_C6.2.2.2.2.2.2 (fun _ => fresh0) ⟨[], [], [(0, [[1]])], 0⟩ (by decide)⟩

/-- C5 witness: a fresh tracer given one observation, and housekeeping of a
single non-day-aligned bucket below the release time. -/
theorem claim_C5_witness :
    (∀ p ∈ (Lowcost.applyAdds (fun l => l) [([1], 3600)]
        (Lowcost.init 0 [2] (fun l => l))).observations,
      p.1 % SECONDS_PER_BATCH = 0) ∧
    (∀ p ∈ (Lowcost.housekeeping_after_batch (fun l => l) ⟨86400, []⟩
        ⟨[], [(7200, [[3]])], 0, [], []⟩).observations,
      p.1 < (86400 : Int) → p.1 % SECONDS_PER_DAY = 0) ∧
    ((Lowcost.housekeeping_after_batch (fun l => l) ⟨86400, []⟩
        ⟨[], [(7200, [[3]])], 0, [], []⟩).observations.filter
        (fun p => decide ((86400 : Int) ≤ p.1)) =
      ([(7200, [[3]])] : List (Int × List (List Nat))).filter
        (fun p => decide ((86400 : Int) ≤ p.1))) ∧
    List.Perm
      (Lowcost.bagsFlatten (Lowcost.housekeeping_after_batch (fun l => l) ⟨86400, []⟩
        ⟨[], [(7200, [[3]])], 0, [], []⟩).observations)
      (Lowcost.bagsFlatten [(7200, [[3]])]) :=
  ⟨claim_C5.1 (fun l => l) 0 [2] [([1], 3600)],
   (claim_C5.2 (fun l => l) ⟨86400, []⟩ ⟨[], [(7200, [[3]])], 0, [], []⟩).1,
   (claim_C5.2 (fun l => l) ⟨86400, []⟩ ⟨[], [(7200, [[3]])], 0, [], []⟩).2.1,
   (claim_C5.2 (fun l => l) ⟨86400, []⟩ ⟨[], [(7200, [[3]])], 0, [], []⟩).2.2
     (fun l => List.Perm.refl l) (by decide)⟩

/-- C10: the low-cost key-chain invariant. Starting from a fresh tracer,
after any sequence of state-mutating operations the key history is a
downward SHA-256 chain: current_day_key = SHA256(past_keys[0]) whenever
past_keys is non-empty, and past_keys[i] = SHA256(past_keys[i+1]); in
particular get_tracing_information with reset empties past_keys and keeps
the invariant vacuously. -/
theorem claim_C10 (startTime : Int) (freshKey : List Nat) (sh : ShuffleFn)
    (ops : List Lowcost.Op) :
    Lowcost.isHashChain
      ((ops.foldl Lowcost.applyOp (Lowcost.init startTime freshKey sh)).current_day_key)
      ((ops.foldl Lowcost.applyOp (Lowcost.init startTime freshKey sh)).past_keys) = true := by
  suffices h : ∀ (ops : List Lowcost.Op) (s : Lowcost.State),
      Lowcost.isHashChain s.current_day_key s.past_keys = true →
      Lowcost.isHashChain ((ops.foldl Lowcost.applyOp s).current_day_key)
        ((ops.foldl Lowcost.applyOp s).past_keys) = true by
    exact h ops _ rfl
  intro ops
  induction ops with
  | nil => intro s h; exact h
  | cons o ops ih =>
    intro s h
    exact ih _ (Lowcost.isHashChain_applyOp s o h)

end DP3T
